import Mathlib

/-!
# Verification of the `uuidv7` library (TheEdoRan/uuidv7-js)

Shallow embedding of `src/index.ts`, `src/timestamp-uuid.ts` and `src/utils.ts`.

Modelling conventions:
* JavaScript strings are modelled as `List Char`.
* `bigint` values are modelled as `Nat` (they are non-negative everywhere in
  this code except the `-1n` sentinel of `#lastUUID`, which is modelled as
  `Int`); `number` timestamps are modelled as `Int` where they can be
  negative (`#lastTimestamp` starts at `-1`, custom timestamps are range
  checked) and as `Nat` where they come from the clock.
* The sources of nondeterminism (the wall clock `Date.now()`, the 128-bit
  value underlying the string returned by `crypto.randomUUID()`, and the
  32-bit value returned by `crypto.getRandomValues(new Uint32Array(1))[0]`)
  are passed in explicitly as an environment record, one per loop iteration.
* JavaScript `while` loops are modelled by structural recursion on the list
  of environment records (the clock-driven generator) or on an explicit fuel
  argument that is proved irrelevant (the `toString(16)` and base-N encoding
  loops, whose value argument strictly decreases).
-/

/-! ## Hexadecimal characters and strings -/

/-- The hexadecimal digit character for a value `d`, as produced by the
JavaScript `toString(16)` conversion (lowercase): `0`-`9` then `a`-`f`. -/
def hexChar (d : Nat) : Char :=
  if d < 10 then Char.ofNat (48 + d) else Char.ofNat (87 + d)

/-- The character class `[0-9a-fA-F]` of the validation regex. -/
def isHexDigit (c : Char) : Bool :=
  ('0' ≤ c && c ≤ '9') || ('a' ≤ c && c ≤ 'f') || ('A' ≤ c && c ≤ 'F')

/-- The character class `[89abAB]` of the validation regex (variant nibble). -/
def isVariantChar (c : Char) : Bool :=
  c == '8' || c == '9' || c == 'a' || c == 'b' || c == 'A' || c == 'B'

/-- Numeric value of one hexadecimal digit character, as `parseInt(·, 16)`
and `BigInt("0x" + ·)` interpret it (case-insensitive); `0` on other
characters, which never occur on the guarded call sites. -/
def hexVal (c : Char) : Nat :=
  if '0' ≤ c ∧ c ≤ '9' then c.toNat - 48
  else if 'a' ≤ c ∧ c ≤ 'f' then c.toNat - 87
  else if 'A' ≤ c ∧ c ≤ 'F' then c.toNat - 55
  else 0

/-- Value of a big-endian string of hexadecimal digits, as parsed by
`BigInt("0x" + s)` and `parseInt(s, 16)` (both call sites guarantee every
character is a hexadecimal digit). -/
def hexParse (s : List Char) : Nat :=
  s.foldl (fun n c => 16 * n + hexVal c) 0

/-- One step of the JavaScript `toString(16)` digit loop, with explicit fuel
(the loop divides its argument by 16 until it becomes 0, so any fuel above
the argument is enough; see `toHexAux_congr`). -/
def toHexAux : Nat → Nat → List Char
  | 0, _ => []
  | fuel + 1, n =>
    if n < 16 then [hexChar n] else toHexAux fuel (n / 16) ++ [hexChar (n % 16)]

/-- `n.toString(16)` for a non-negative JavaScript `bigint` `n`: big-endian
hexadecimal digits, no leading zeros, `"0"` for 0. -/
def jsToHex (n : Nat) : List Char := toHexAux (n + 1) n

/-- `String.prototype.padStart(w, c)`. -/
def padStart (w : Nat) (c : Char) (s : List Char) : List Char :=
  List.replicate (w - s.length) c ++ s

/-- `n.toString(16).padStart(32, "0")` - the 32-digit rendering used by
`gen` and `decodeOrThrow` (longer than 32 digits if `n ≥ 2^128`, exactly as
in JavaScript, where `padStart` never truncates). -/
def toHex32 (n : Nat) : List Char := padStart 32 '0' (jsToHex n)

/-- `addHyphens` from `src/utils.ts`:
`substring(0,8) + "-" + substring(8,12) + "-" + substring(12,16) + "-" +
substring(16,20) + "-" + substring(20)`. -/
def addHyphens (s : List Char) : List Char :=
  s.take 8 ++ '-' ::
    ((s.drop 8).take 4 ++ '-' ::
      ((s.drop 12).take 4 ++ '-' ::
        ((s.drop 16).take 4 ++ '-' :: s.drop 20)))

/-- The canonical hyphenated string of a 128-bit value, as returned by both
generators: `addHyphens(uuid.toString(16).padStart(32, "0"))`. -/
def render (u : Nat) : List Char := addHyphens (toHex32 u)

/-! ## The structural validator

`UUIDv7.isValid` tests the anchored regex
`^[0-9a-fA-F]{8}-[0-9a-fA-F]{4}-7[0-9a-fA-F]{3}-[89abAB][0-9a-fA-F]{3}-[0-9a-fA-F]{12}$`,
embedded here as a sequential matcher over the character list. -/

/-- Match exactly `k` characters of class `[0-9a-fA-F]`, returning the rest. -/
def hexRun : Nat → List Char → Option (List Char)
  | 0, s => some s
  | _ + 1, [] => none
  | k + 1, c :: s => if isHexDigit c then hexRun k s else none

/-- Match one fixed character, returning the rest. -/
def expectChar (x : Char) : List Char → Option (List Char)
  | [] => none
  | c :: s => if c = x then some s else none

/-- Match one character of class `[89abAB]`, returning the rest. -/
def expectVariant : List Char → Option (List Char)
  | [] => none
  | c :: s => if isVariantChar c then some s else none

/-- `UUIDv7.isValid` (static). -/
def isValid (id : List Char) : Bool :=
  match (((((((((hexRun 8 id).bind (expectChar '-')).bind (hexRun 4)).bind
      (expectChar '-')).bind (expectChar '7')).bind (hexRun 3)).bind
      (expectChar '-')).bind expectVariant |>.bind (hexRun 3) |>.bind
      (expectChar '-')).bind (hexRun 12)) with
  | some [] => true
  | _ => false

/-! ## Timestamp extraction -/

/-- `String.prototype.replace("-", "")`: removes the first occurrence only
(string pattern, not a global regex). -/
def replaceFirst : List Char → Char → List Char
  | [], _ => []
  | c :: s, x => if c = x then s else c :: replaceFirst s x

/-- `UUIDv7.timestamp` (static): `null` when invalid, otherwise
`parseInt(id.slice(0, 13).replace("-", ""), 16)` (the 12 leading
hexadecimal digits, i.e. the top 48 bits). -/
def timestamp (id : List Char) : Option Nat :=
  if isValid id then some (hexParse (replaceFirst (id.take 13) '-')) else none

/-! ## Bit packing and the random parts -/

/-- The field packing performed identically in `UUIDv7.gen` and
`TimestampUUIDv7.gen`:
`(t << 80) | (0b0111 << 76) | (randA << 64) | (0b10 << 62) | randB`. -/
def pack (t randA randB : Nat) : Nat :=
  ((((t <<< 80) ||| (7 <<< 76)) ||| (randA <<< 64)) ||| (2 <<< 62)) ||| randB

/-- Result record of `genRandParts` from `src/utils.ts`. -/
structure RandParts where
  randA : Nat
  randB : Nat
  deriving Repr, DecidableEq

/-- `genRandParts` from `src/utils.ts`, applied to the 128-bit value `v4`
underlying the canonical string of `crypto.randomUUID()`:
* `randA = parseInt(v4String.slice(15, 18), 16)` - characters 15-17 of the
  hyphenated string, i.e. hexadecimal digits 13-15;
* `randB = BigInt("0x" + v4String.replace(hyphens, "")) & ((1n << 62n) - 1n)`
  (the replacement is a global regex removing every hyphen). -/
def genRandParts (v4 : Nat) : RandParts :=
  let v4String := addHyphens (toHex32 v4)
  { randA := hexParse ((v4String.drop 15).take 3)
    randB := hexParse (v4String.filter (fun c => c != '-')) &&& ((1 <<< 62) - 1) }

/-! ## The clock-driven generator (`UUIDv7.gen` without a custom timestamp) -/

/-- Private state of a `UUIDv7` instance. In the source `#lastRandA` and
`#lastRandB` start out `undefined` and are first read only on the
`timestamp == #lastTimestamp` path, which is unreachable before the first
commit; they are given arbitrary initial values (0) here. -/
structure GenState where
  lastTimestamp : Int
  lastRandA : Nat
  lastRandB : Nat
  lastUUID : Int
  deriving Repr, DecidableEq

/-- State of a freshly constructed `UUIDv7` instance
(`#lastTimestamp = -1`, `#lastUUID = -1n`). -/
def initState : GenState :=
  { lastTimestamp := -1, lastRandA := 0, lastRandB := 0, lastUUID := -1 }

/-- Nondeterministic inputs consumed by one iteration of the `while` loop of
`UUIDv7.gen`: the clock reading `now = Date.now()`, the 128-bit random value
`fresh` behind the `genRandParts()` call of the fresh path, the 32-bit value
`step` behind `crypto.getRandomValues(new Uint32Array(1))[0]`, and the
128-bit random value `fresh2` behind the `genRandParts()` call of the
overflow path. An iteration reads only the inputs its path needs. -/
structure Env where
  now : Nat
  fresh : Nat
  step : Nat
  fresh2 : Nat
  deriving Repr, DecidableEq

/-- Well-formedness of the external inputs: `Date.now()` fits in 48 bits,
`crypto.randomUUID()` has 32 hexadecimal digits, and
`crypto.getRandomValues` on a `Uint32Array` yields a 32-bit value. -/
def EnvWf (e : Env) : Prop :=
  e.now < 2 ^ 48 ∧ e.fresh < 2 ^ 128 ∧ e.step < 2 ^ 32 ∧ e.fresh2 < 2 ^ 128

/-- Control result of one execution of the loop body of `UUIDv7.gen`. -/
inductive Ctl where
  | retry : Ctl
  | emit : Nat → Ctl
  deriving Repr, DecidableEq

/-- One execution of the body of the `while` loop of `UUIDv7.gen` (lines
45-107 of `src/index.ts`): returns the state as left by the body (`continue`
fires before any field assignment; a completed body assigns `#lastRandA`,
`#lastRandB`, `#lastTimestamp`) together with `Ctl.retry` for `continue` or
`Ctl.emit uuid` for a body that reached the end with the packed value. -/
def genBody (s : GenState) (e : Env) : GenState × Ctl :=
  let ts := e.now
  if (ts : Int) > s.lastTimestamp then
    let parts := genRandParts e.fresh
    ({ s with
        lastTimestamp := (ts : Int)
        lastRandA := parts.randA
        lastRandB := parts.randB },
      Ctl.emit (pack ts parts.randA parts.randB))
  else if (ts : Int) < s.lastTimestamp then
    (s, Ctl.retry)
  else
    let randA := s.lastRandA
    let randB := s.lastRandB + (e.step + 1)
    if randB > 2 ^ 62 - 1 then
      let randB2 := (genRandParts e.fresh2).randB
      let randA2 := randA + 1
      if randA2 > 2 ^ 12 - 1 then (s, Ctl.retry)
      else
        ({ s with
            lastTimestamp := (ts : Int)
            lastRandA := randA2
            lastRandB := randB2 },
          Ctl.emit (pack ts randA2 randB2))
    else
      ({ s with
          lastTimestamp := (ts : Int)
          lastRandA := randA
          lastRandB := randB },
        Ctl.emit (pack ts randA randB))

/-- The `while (this.#lastUUID >= uuid) { ... }` loop of `UUIDv7.gen`
followed by `this.#lastUUID = uuid`. Initially `uuid = #lastUUID`, so the
body always runs at least once; after a completed body the condition is
re-checked against the packed value. One environment record is consumed per
iteration; `none` means the supplied list ran out (the real loop would keep
spinning). Returns the final state, the emitted 128-bit value, and the
unconsumed environments. -/
def genLoop (s : GenState) : List Env → Option (GenState × Nat × List Env)
  | [] => none
  | e :: es =>
    match genBody s e with
    | (s1, Ctl.retry) => genLoop s1 es
    | (s1, Ctl.emit u) =>
      if s1.lastUUID ≥ (u : Int) then genLoop s1 es
      else some ({ s1 with lastUUID := (u : Int) }, u, es)

/-- `UUIDv7.gen()` (no custom timestamp): the loop result rendered as the
canonical hyphenated string. -/
def gen (s : GenState) (envs : List Env) : Option (GenState × List Char × List Env) :=
  (genLoop s envs).map (fun r => (r.1, render r.2.1, r.2.2))

/-- `n` successive calls of `UUIDv7.gen()` on one instance, threading the
state and the environment stream; the 128-bit values are collected in call
order. Models the per-call behaviour of `UUIDv7.genMany(n)`. -/
def genCalls : Nat → GenState → List Env → Option (GenState × List Nat × List Env)
  | 0, s, envs => some (s, [], envs)
  | n + 1, s, envs =>
    match genLoop s envs with
    | none => none
    | some (s1, u, rest) =>
      match genCalls n s1 rest with
      | none => none
      | some (s2, us, rest2) => some (s2, u :: us, rest2)

/-- `UUIDv7.genMany(amount)` (no custom timestamp): throws when
`amount <= 0`, otherwise performs `amount` sequential `gen()` calls. -/
def genMany (amount : Int) (s : GenState) (envs : List Env) :
    Except String (Option (GenState × List Nat × List Env)) :=
  if amount ≤ 0 then
    Except.error "uuidv7 genMany error: generation amount must be greater than 0"
  else
    Except.ok (genCalls amount.toNat s envs)

/-! ## The fixed-timestamp generator (`TimestampUUIDv7.gen`) -/

/-- Private state of a `TimestampUUIDv7` instance (same remark on the
initial `#lastRandA`/`#lastRandB` as for `GenState`). -/
structure TState where
  lastTimestamp : Int
  lastRandA : Nat
  lastRandB : Nat
  deriving Repr, DecidableEq

/-- State of a freshly constructed `TimestampUUIDv7` instance. -/
def initTState : TState := { lastTimestamp := -1, lastRandA := 0, lastRandB := 0 }

/-- Nondeterministic inputs of one `TimestampUUIDv7.gen` call (no clock). -/
structure TEnv where
  fresh : Nat
  step : Nat
  fresh2 : Nat
  deriving Repr, DecidableEq

/-- Well-formedness of the random inputs of one `TimestampUUIDv7.gen` call. -/
def TEnvWf (e : TEnv) : Prop :=
  e.fresh < 2 ^ 128 ∧ e.step < 2 ^ 32 ∧ e.fresh2 < 2 ^ 128

/-- `TimestampUUIDv7.gen(timestamp)` from `src/timestamp-uuid.ts`: returns
the state as left by the call and either the generated string or the thrown
error. The range guard throws before anything else runs. -/
def genT (s : TState) (ts : Int) (e : TEnv) : TState × Except String (List Char) :=
  if ts < 0 ∨ ts > 2 ^ 48 - 1 then
    (s, Except.error "uuidv7 gen error: custom timestamp must be between 0 and 2 ** 48 - 1")
  else if ts ≠ s.lastTimestamp then
    let parts := genRandParts e.fresh
    ({ lastTimestamp := ts, lastRandA := parts.randA, lastRandB := parts.randB },
      Except.ok (render (pack ts.toNat parts.randA parts.randB)))
  else
    let randA := s.lastRandA
    let randB := s.lastRandB + (e.step + 1)
    if randB > 2 ^ 62 - 1 then
      let newParts := genRandParts e.fresh2
      let randB2 := newParts.randB
      let randA2 := randA + 1
      let randA3 := if randA2 > 2 ^ 12 - 1 then newParts.randA else randA2
      ({ lastTimestamp := ts, lastRandA := randA3, lastRandB := randB2 },
        Except.ok (render (pack ts.toNat randA3 randB2)))
    else
      ({ lastTimestamp := ts, lastRandA := randA, lastRandB := randB },
        Except.ok (render (pack ts.toNat randA randB)))

/-! ## The transcoder (constructor, `encode`, `decode`, `decodeOrThrow`) -/

/-- The default Base58 alphabet of the `UUIDv7` constructor. -/
def defaultAlphabet : List Char :=
  "123456789ABCDEFGHJKLMNPQRSTUVWXYZabcdefghijkmnopqrstuvwxyz".toList

/-- The `UUIDv7` constructor, restricted to what it does with
`opts.encodeAlphabet` (the only observable effect besides creating fresh
state). `none` models a missing option. Note the JavaScript truthiness
test `if (opts?.encodeAlphabet)`: the empty string is falsy, so it skips
both validations, and `opts?.encodeAlphabet ?? default` then keeps the
empty string because `??` only replaces `null`/`undefined`. -/
def mkUUIDv7 : Option (List Char) → Except String (List Char)
  | some cs =>
    if cs ≠ [] then
      if cs.length < 16 ∨ cs.length > 64 then
        Except.error "uuidv7 error: encode alphabet must be between 16 and 64 characters long"
      else if cs.dedup.length ≠ cs.length then
        Except.error "uuidv7 error: encode alphabet must not contain duplicate characters"
      else Except.ok cs
    else Except.ok cs
  | none => Except.ok defaultAlphabet

/-- An alphabet that passed the constructor validation: 16-64 characters,
no duplicates. This is the parenthetical of the claims about `encode` and
`decode`. -/
structure Alphabet where
  chars : List Char
  min_len : 16 ≤ chars.length
  max_len : chars.length ≤ 64
  nodup : chars.Nodup

/-- One step of the `while (n > 0n)` digit loop of `UUIDv7.encode`, with
explicit fuel (the loop divides `n` by the alphabet size, which is at least
16, so any fuel above `n` is enough; see `encodeNatAux_congr`):
`encoded = alphabet[n % len] + encoded; n /= len`. -/
def encodeNatAux (A : Alphabet) : Nat → Nat → List Char
  | 0, _ => []
  | fuel + 1, n =>
    if n = 0 then []
    else
      encodeNatAux A fuel (n / A.chars.length) ++
        [A.chars.getD (n % A.chars.length) ' ']

/-- The digit loop of `UUIDv7.encode` on the 128-bit value. -/
def encodeNat (A : Alphabet) (n : Nat) : List Char := encodeNatAux A (n + 1) n

/-- `UUIDv7.encode`: validates, parses the hexadecimal digits (every hyphen
stripped by a global regex replacement), then runs the digit loop. -/
def encode (A : Alphabet) (id : List Char) : Except String (List Char) :=
  if isValid id then
    Except.ok (encodeNat A (hexParse (id.filter (fun c => c != '-'))))
  else Except.error "uuidv7 encode error: not a valid UUIDv7"

/-- The character loop of `UUIDv7.decodeOrThrow`:
`charIdx = alphabet.indexOf(c)` (first occurrence), throw on `-1`
(membership failure), else `n = n * len + charIdx`. -/
def decodeLoop (A : Alphabet) : Nat → List Char → Except String Nat
  | n, [] => Except.ok n
  | n, c :: cs =>
    if c ∈ A.chars then decodeLoop A (n * A.chars.length + A.chars.indexOf c) cs
    else Except.error "uuidv7 decode error: invalid character in id"

/-- `UUIDv7.decodeOrThrow`: run the character loop, render the accumulated
value as the canonical hyphenated 32-digit string, and validate it. -/
def decodeOrThrow (A : Alphabet) (encodedId : List Char) : Except String (List Char) :=
  match decodeLoop A 0 encodedId with
  | Except.error e => Except.error e
  | Except.ok n =>
    let decoded := addHyphens (toHex32 n)
    if isValid decoded then Except.ok decoded
    else Except.error "uuidv7 decode error: cannot decode into a valid UUIDv7"

/-- `UUIDv7.decode`: `decodeOrThrow` with the failure reason discarded. -/
def decode (A : Alphabet) (encodedId : List Char) : Option (List Char) :=
  match decodeOrThrow A encodedId with
  | Except.ok d => some d
  | Except.error _ => none

/-! ## Helper definitions for the statements and proofs -/

/-- JavaScript string comparison `s < t` (lexicographic by code units;
all characters involved here are ASCII, where code units, code points and
Lean `Char` order agree). -/
def lexLt : List Char → List Char → Bool
  | [], [] => false
  | [], _ :: _ => true
  | _ :: _, [] => false
  | a :: s, b :: t => if a < b then true else if b < a then false else lexLt s t

/-- The `w`-digit zero-padded big-endian hexadecimal rendering of `n`,
split at the most significant digit; proved equal to
`padStart w '0' (jsToHex n)` for `n < 16 ^ w` (`w > 0`). -/
def hexPadM : Nat → Nat → List Char
  | 0, _ => []
  | w + 1, n => hexChar (n / 16 ^ w) :: hexPadM w (n % 16 ^ w)

/-- A lowercase hexadecimal digit (the digits `toString(16)` can emit). -/
def isLowerHex (c : Char) : Bool :=
  ('0' ≤ c && c ≤ '9') || ('a' ≤ c && c ≤ 'f')

/-- No uppercase hexadecimal letters anywhere: together with `isValid` this
characterizes the canonical (lowercase) form the library itself outputs. -/
def noUpperHex (s : List Char) : Bool :=
  s.all (fun c => !('A' ≤ c && c ≤ 'F'))

/-- Field bounds on the stored counters of a clock-driven generator state
(established by every commit, and trivially by the initial state). -/
def StateWf (s : GenState) : Prop :=
  s.lastRandA < 2 ^ 12 ∧ s.lastRandB < 2 ^ 62 ∧
    -1 ≤ s.lastTimestamp ∧ s.lastTimestamp < 2 ^ 48

/-- Full consistency of a clock-driven generator state: field bounds plus
the fact that `#lastUUID` is either the `-1n` sentinel (then no commit has
happened and `#lastTimestamp` is still `-1`) or the packing of the stored
fields. Holds for `initState` and is preserved by `genLoop`. -/
def Consistent (s : GenState) : Prop :=
  StateWf s ∧
    ((s.lastTimestamp = -1 ∧ s.lastUUID = -1) ∨
      (0 ≤ s.lastTimestamp ∧
        s.lastUUID = (pack s.lastTimestamp.toNat s.lastRandA s.lastRandB : Int)))

/-- Field bounds on the stored counters of a fixed-timestamp generator
state (established by every call, and trivially by the initial state). -/
def TStateWf (s : TState) : Prop :=
  s.lastRandA < 2 ^ 12 ∧ s.lastRandB < 2 ^ 62

/-- The default Base58 alphabet, as a validated alphabet. -/
def B58 : Alphabet :=
  { chars := defaultAlphabet
    min_len := by decide
    max_len := by decide
    nodup := by decide }

/-- A structurally valid identifier containing uppercase hexadecimal
letters (the validation regex is case-insensitive). -/
def upperId : List Char := "018F0760-4A87-737D-9889-B832D3DCCE74".toList

/-- The canonical (lowercase) form of `upperId`. -/
def lowerId : List Char := "018f0760-4a87-737d-9889-b832d3dcce74".toList

/-! ## Fuel irrelevance for the digit loops -/

theorem toHexAux_congr (n : Nat) : ∀ f g : Nat, n < f → n < g →
    toHexAux f n = toHexAux g n := by
  induction n using Nat.strong_induction_on with
  | _ n ih =>
    intro f g hf hg
    match f, g, hf, hg with
    | f + 1, g + 1, hf, hg =>
      simp only [toHexAux]
      by_cases h16 : n < 16
      · simp [h16]
      · have hdiv : n / 16 < n := Nat.div_lt_self (by omega) (by omega)
        simp only [h16, if_false]
        rw [ih (n / 16) hdiv f g (by omega) (by omega)]

theorem jsToHex_eq (n : Nat) : jsToHex n =
    if n < 16 then [hexChar n] else jsToHex (n / 16) ++ [hexChar (n % 16)] := by
  show toHexAux (n + 1) n = _
  simp only [toHexAux]
  by_cases h16 : n < 16
  · simp [h16]
  · have hdiv : n / 16 < n := Nat.div_lt_self (by omega) (by omega)
    simp only [h16, if_false]
    rw [toHexAux_congr (n / 16) n (n / 16 + 1) (by omega) (by omega)]
    rfl

/-! ## Character-level facts -/

theorem char_le_iff {a b : Char} : a ≤ b ↔ a.toNat ≤ b.toNat := by
  rw [Char.le_def, UInt32.le_def, BitVec.le_def]
  rfl

theorem char_lt_iff {a b : Char} : a < b ↔ a.toNat < b.toNat := by
  rw [Char.lt_def, UInt32.lt_def, BitVec.lt_def]
  rfl

theorem hexChar_isHexDigit {d : Nat} (h : d < 16) : isHexDigit (hexChar d) = true := by
  interval_cases d <;> decide

theorem hexChar_ne_hyphen {d : Nat} (h : d < 16) : (hexChar d != '-') = true := by
  interval_cases d <;> decide

theorem hexChar_lt_hexChar {d e : Nat} (hde : d < e) (he : e < 16) :
    hexChar d < hexChar e := by
  interval_cases e <;> interval_cases d <;> decide

theorem hexVal_hexChar {d : Nat} (h : d < 16) : hexVal (hexChar d) = d := by
  interval_cases d <;> decide

theorem hexVal_lt_16 {c : Char} (h : isHexDigit c = true) : hexVal c < 16 := by
  unfold isHexDigit at h
  simp only [Bool.or_eq_true, Bool.and_eq_true, decide_eq_true_eq] at h
  have hcodes : ('0' : Char).toNat = 48 ∧ ('9' : Char).toNat = 57 ∧
      ('a' : Char).toNat = 97 ∧ ('f' : Char).toNat = 102 ∧
      ('A' : Char).toNat = 65 ∧ ('F' : Char).toNat = 70 := by decide
  obtain ⟨h0, h9, ha, hf, hA, hF⟩ := hcodes
  unfold hexVal
  rcases h with (⟨u, v⟩ | ⟨u, v⟩) | ⟨u, v⟩ <;>
    rw [char_le_iff] at u v
  · rw [if_pos ⟨char_le_iff.2 (by omega), char_le_iff.2 (by omega)⟩]
    omega
  · rw [if_neg, if_pos ⟨char_le_iff.2 (by omega), char_le_iff.2 (by omega)⟩]
    · omega
    · rintro ⟨u2, v2⟩
      rw [char_le_iff] at u2 v2
      omega
  · rw [if_neg, if_neg, if_pos ⟨char_le_iff.2 (by omega), char_le_iff.2 (by omega)⟩]
    · omega
    · rintro ⟨u2, v2⟩
      rw [char_le_iff] at u2 v2
      omega
    · rintro ⟨u2, v2⟩
      rw [char_le_iff] at u2 v2
      omega

theorem hexChar_hexVal {c : Char} (h : isLowerHex c = true) : hexChar (hexVal c) = c := by
  unfold isLowerHex at h
  simp only [Bool.or_eq_true, Bool.and_eq_true, decide_eq_true_eq] at h
  have hcodes : ('0' : Char).toNat = 48 ∧ ('9' : Char).toNat = 57 ∧
      ('a' : Char).toNat = 97 ∧ ('f' : Char).toNat = 102 := by decide
  obtain ⟨h0, h9, ha, hf⟩ := hcodes
  rcases h with ⟨u, v⟩ | ⟨u, v⟩ <;> rw [char_le_iff] at u v
  · unfold hexVal
    rw [if_pos ⟨char_le_iff.2 (by omega), char_le_iff.2 (by omega)⟩]
    unfold hexChar
    rw [if_pos (by omega)]
    have : 48 + (c.toNat - 48) = c.toNat := by omega
    rw [this, Char.ofNat_toNat]
  · unfold hexVal
    rw [if_neg, if_pos ⟨char_le_iff.2 (by omega), char_le_iff.2 (by omega)⟩]
    · unfold hexChar
      rw [if_neg (by omega)]
      have : 87 + (c.toNat - 87) = c.toNat := by omega
      rw [this, Char.ofNat_toNat]
    · rintro ⟨u2, v2⟩
      rw [char_le_iff] at u2 v2
      omega

theorem isLowerHex_of_hex_noUpper {c : Char} (h : isHexDigit c = true)
    (hu : (!('A' ≤ c && c ≤ 'F')) = true) : isLowerHex c = true := by
  unfold isHexDigit at h
  unfold isLowerHex
  simp only [Bool.or_eq_true, Bool.and_eq_true, decide_eq_true_eq] at h ⊢
  simp only [Bool.not_eq_eq_eq_not, Bool.not_true, Bool.and_eq_false_iff,
    decide_eq_false_iff_not] at hu
  tauto

theorem hex_ne_hyphen {c : Char} (h : isHexDigit c = true) : (c != '-') = true := by
  unfold isHexDigit at h
  simp only [Bool.or_eq_true, Bool.and_eq_true, decide_eq_true_eq] at h
  have hh : ('-' : Char).toNat = 45 := rfl
  have h0 : ('0' : Char).toNat = 48 := rfl
  have ha : ('a' : Char).toNat = 97 := rfl
  have hA : ('A' : Char).toNat = 65 := rfl
  simp only [bne_iff_ne, ne_eq]
  intro hc
  subst hc
  rcases h with (⟨u, v⟩ | ⟨u, v⟩) | ⟨u, v⟩ <;> rw [char_le_iff] at u <;> omega

theorem variant_isHexDigit {c : Char} (h : isVariantChar c = true) :
    isHexDigit c = true := by
  unfold isVariantChar at h
  simp only [Bool.or_eq_true, beq_iff_eq] at h
  rcases h with ((((h | h) | h) | h) | h) | h <;> subst h <;> decide

theorem isHexDigit_of_lower {c : Char} (h : isLowerHex c = true) : isHexDigit c = true := by
  unfold isLowerHex at h
  unfold isHexDigit
  simp only [Bool.or_eq_true] at h ⊢
  tauto

/-! ## The fixed-width hexadecimal rendering -/

theorem hexPadM_length : ∀ w n, (hexPadM w n).length = w := by
  intro w
  induction w with
  | zero => intro n; rfl
  | succ w ih => intro n; simp [hexPadM, ih]

theorem hexPadM_zero : ∀ w, hexPadM w 0 = List.replicate w '0' := by
  intro w
  induction w with
  | zero => rfl
  | succ w ih =>
    simp only [hexPadM, Nat.zero_div, Nat.zero_mod, ih, List.replicate_succ]
    rfl

theorem hexPadM_bottom : ∀ w n, n < 16 ^ (w + 1) →
    hexPadM (w + 1) n = hexPadM w (n / 16) ++ [hexChar (n % 16)] := by
  intro w
  induction w with
  | zero =>
    intro n h
    rw [pow_one] at h
    simp [hexPadM, Nat.mod_eq_of_lt h, Nat.div_eq_of_lt h]
  | succ w ih =>
    intro n h
    have hmod : n % 16 ^ (w + 1) < 16 ^ (w + 1) := Nat.mod_lt _ (by positivity)
    have e1 : n / 16 ^ (w + 1) = n / 16 / 16 ^ w := by
      rw [Nat.div_div_eq_div_mul, ← pow_succ']
    have e2 : n % 16 ^ (w + 1) / 16 = n / 16 % 16 ^ w := by
      have : (16 : Nat) ^ (w + 1) = 16 * 16 ^ w := by rw [pow_succ']
      rw [this, Nat.mod_mul_right_div_self]
    have e3 : n % 16 ^ (w + 1) % 16 = n % 16 :=
      Nat.mod_mod_of_dvd n (dvd_pow_self 16 (Nat.succ_ne_zero w))
    calc hexPadM (w + 1 + 1) n
        = hexChar (n / 16 ^ (w + 1)) :: hexPadM (w + 1) (n % 16 ^ (w + 1)) := rfl
      _ = hexChar (n / 16 ^ (w + 1)) ::
            (hexPadM w (n % 16 ^ (w + 1) / 16) ++ [hexChar (n % 16 ^ (w + 1) % 16)]) := by
          rw [ih _ hmod]
      _ = hexChar (n / 16 / 16 ^ w) ::
            (hexPadM w (n / 16 % 16 ^ w) ++ [hexChar (n % 16)]) := by
          rw [e1, e2, e3]
      _ = hexPadM (w + 1) (n / 16) ++ [hexChar (n % 16)] := rfl

theorem padStart_jsToHex : ∀ w n, n < 16 ^ (w + 1) →
    padStart (w + 1) '0' (jsToHex n) = hexPadM (w + 1) n := by
  intro w
  induction w with
  | zero =>
    intro n h
    rw [pow_one] at h
    rw [jsToHex_eq, if_pos h]
    simp [padStart, hexPadM]
  | succ w ih =>
    intro n h
    by_cases h16 : n < 16
    · rw [jsToHex_eq, if_pos h16]
      rw [hexPadM_bottom _ _ h, Nat.div_eq_of_lt h16, Nat.mod_eq_of_lt h16,
        hexPadM_zero]
      simp [padStart]
    · rw [jsToHex_eq, if_neg h16]
      have hdivlt : n / 16 < 16 ^ (w + 1) := by
        rw [Nat.div_lt_iff_lt_mul (by omega)]
        calc n < 16 ^ (w + 1 + 1) := h
          _ = 16 ^ (w + 1) * 16 := by rw [pow_succ]
      rw [hexPadM_bottom _ _ h, ← ih _ hdivlt]
      simp only [padStart, List.length_append, List.length_cons, List.length_nil]
      rw [← List.append_assoc]
      congr 1
      have : w + 1 + 1 - (List.length (jsToHex (n / 16)) + 1)
          = w + 1 - List.length (jsToHex (n / 16)) := by omega
      rw [this]

theorem toHex32_eq_hexPadM {n : Nat} (h : n < 2 ^ 128) : toHex32 n = hexPadM 32 n := by
  have : (2 : Nat) ^ 128 = 16 ^ (31 + 1) := by norm_num
  exact padStart_jsToHex 31 n (by omega)

theorem hexPadM_all_hex : ∀ w n, n < 16 ^ w →
    ∀ c ∈ hexPadM w n, isHexDigit c = true := by
  intro w
  induction w with
  | zero => intro n _ c hc; simp [hexPadM] at hc
  | succ w ih =>
    intro n h c hc
    simp only [hexPadM, List.mem_cons] at hc
    rcases hc with hc | hc
    · subst hc
      apply hexChar_isHexDigit
      rw [Nat.div_lt_iff_lt_mul (by positivity)]
      calc n < 16 ^ (w + 1) := h
        _ = 16 * 16 ^ w := by rw [pow_succ']
    · exact ih _ (Nat.mod_lt _ (by positivity)) c hc

theorem hexPadM_take : ∀ k w n, (hexPadM (k + w) n).take k = hexPadM k (n / 16 ^ w) := by
  intro k
  induction k with
  | zero => intro w n; rfl
  | succ k ih =>
    intro w n
    have e0 : k + 1 + w = (k + w) + 1 := by omega
    rw [e0]
    simp only [hexPadM, List.take_succ_cons]
    rw [ih w (n % 16 ^ (k + w))]
    have e1 : n / 16 ^ (k + w) = n / 16 ^ w / 16 ^ k := by
      rw [Nat.div_div_eq_div_mul, ← pow_add, Nat.add_comm w k]
    have e2 : n % 16 ^ (k + w) / 16 ^ w = n / 16 ^ w % 16 ^ k := by
      have : (16 : Nat) ^ (k + w) = 16 ^ w * 16 ^ k := by
        rw [← pow_add, Nat.add_comm w k]
      rw [this, Nat.mod_mul_right_div_self]
    rw [e1, e2]

theorem hexPadM_drop : ∀ k w n, n < 16 ^ (k + w) →
    (hexPadM (k + w) n).drop k = hexPadM w (n % 16 ^ w) := by
  intro k
  induction k with
  | zero =>
    intro w n h
    simp only [Nat.zero_add] at h ⊢
    rw [List.drop_zero, Nat.mod_eq_of_lt h]
  | succ k ih =>
    intro w n _
    have e0 : k + 1 + w = (k + w) + 1 := by omega
    rw [e0]
    simp only [hexPadM, List.drop_succ_cons]
    rw [ih w (n % 16 ^ (k + w)) (Nat.mod_lt _ (by positivity))]
    congr 1
    have hd : (16 : Nat) ^ w ∣ 16 ^ (k + w) := pow_dvd_pow 16 (by omega)
    exact Nat.mod_mod_of_dvd n hd

/-! ## Parsing hexadecimal strings -/

theorem hexParse_foldl (s : List Char) : ∀ a : Nat,
    s.foldl (fun n c => 16 * n + hexVal c) a = a * 16 ^ s.length + hexParse s := by
  induction s with
  | nil => intro a; simp [hexParse]
  | cons c s ih =>
    intro a
    have hc : hexParse (c :: s) = hexVal c * 16 ^ s.length + hexParse s := by
      show s.foldl _ (16 * 0 + hexVal c) = _
      rw [ih]
      ring_nf
    show s.foldl _ (16 * a + hexVal c) = _
    rw [ih, hc, List.length_cons]
    ring

theorem hexParse_cons (c : Char) (s : List Char) :
    hexParse (c :: s) = hexVal c * 16 ^ s.length + hexParse s := by
  show s.foldl _ (16 * 0 + hexVal c) = _
  rw [hexParse_foldl]
  ring_nf

theorem hexParse_append (s t : List Char) :
    hexParse (s ++ t) = hexParse s * 16 ^ t.length + hexParse t := by
  show (s ++ t).foldl _ 0 = _
  rw [List.foldl_append]
  exact hexParse_foldl t _

theorem hexParse_lt (s : List Char) (h : ∀ c ∈ s, isHexDigit c = true) :
    hexParse s < 16 ^ s.length := by
  induction s with
  | nil => simp [hexParse]
  | cons c s ih =>
    rw [hexParse_cons, List.length_cons]
    have h1 : hexVal c < 16 := hexVal_lt_16 (h c (by simp))
    have h2 : hexParse s < 16 ^ s.length := ih (fun d hd => h d (by simp [hd]))
    calc hexVal c * 16 ^ s.length + hexParse s
        < hexVal c * 16 ^ s.length + 16 ^ s.length := by omega
      _ = (hexVal c + 1) * 16 ^ s.length := by ring
      _ ≤ 16 * 16 ^ s.length := by
          apply Nat.mul_le_mul_right
          omega
      _ = 16 ^ (s.length + 1) := by rw [pow_succ']

theorem hexParse_hexPadM : ∀ w n, n < 16 ^ w → hexParse (hexPadM w n) = n := by
  intro w
  induction w with
  | zero =>
    intro n h
    rw [pow_zero] at h
    interval_cases n
    rfl
  | succ w ih =>
    intro n h
    show hexParse (hexChar (n / 16 ^ w) :: hexPadM w (n % 16 ^ w)) = n
    rw [hexParse_cons, hexPadM_length, ih _ (Nat.mod_lt _ (by positivity)),
      hexVal_hexChar]
    · have hdm := Nat.div_add_mod n (16 ^ w)
      rw [Nat.mul_comm] at hdm
      exact hdm
    · rw [Nat.div_lt_iff_lt_mul (by positivity)]
      calc n < 16 ^ (w + 1) := h
        _ = 16 * 16 ^ w := by rw [pow_succ']

theorem hexPadM_hexParse : ∀ s : List Char, (∀ c ∈ s, isLowerHex c = true) →
    hexPadM s.length (hexParse s) = s := by
  intro s
  induction s with
  | nil => intro _; rfl
  | cons c s ih =>
    intro h
    have hhex : ∀ d ∈ s, isHexDigit d = true := fun d hd =>
      isHexDigit_of_lower (h d (by simp [hd]))
    have hlt : hexParse s < 16 ^ s.length := hexParse_lt s hhex
    have hval : hexVal c < 16 := hexVal_lt_16 (isHexDigit_of_lower (h c (by simp)))
    rw [List.length_cons, hexParse_cons]
    show hexChar ((hexVal c * 16 ^ s.length + hexParse s) / 16 ^ s.length) ::
        hexPadM s.length ((hexVal c * 16 ^ s.length + hexParse s) % 16 ^ s.length) = c :: s
    have e1 : (hexVal c * 16 ^ s.length + hexParse s) / 16 ^ s.length = hexVal c := by
      rw [Nat.add_comm, Nat.add_mul_div_right _ _ (by positivity : 0 < 16 ^ s.length),
        Nat.div_eq_of_lt hlt]
      omega
    have e2 : (hexVal c * 16 ^ s.length + hexParse s) % 16 ^ s.length = hexParse s := by
      rw [Nat.add_comm, Nat.add_mul_mod_self_right, Nat.mod_eq_of_lt hlt]
    rw [e1, e2, hexChar_hexVal (h c (by simp)), ih (fun d hd => h d (by simp [hd]))]

/-! ## Bit-packing arithmetic -/

theorem lor_mul_pow_add : ∀ (k x y : Nat), y < 2 ^ k →
    (x * 2 ^ k) ||| y = x * 2 ^ k + y := by
  intro k
  induction k with
  | zero =>
    intro x y h
    interval_cases y
    simp
  | succ k ih =>
    intro x y h
    have hx : x * 2 ^ (k + 1) = Nat.bit false (x * 2 ^ k) := by
      rw [Nat.bit_val]
      simp
      ring
    have hdiv : Nat.div2 y < 2 ^ k := by
      rw [Nat.div2_val]
      omega
    have h2 : (Nat.bodd y).toNat = y % 2 := by
      cases hb : Nat.bodd y <;> simp [Nat.mod_two_of_bodd, hb]
    conv_lhs => rw [hx, ← Nat.bit_decomp y]
    rw [Nat.lor_bit, ih _ _ hdiv, Nat.bit_val, Bool.false_or, h2, Nat.div2_val]
    have hdm := Nat.div_add_mod y 2
    rw [hx, Nat.bit_val]
    simp
    omega

theorem pack_eq {t a b : Nat} (ht : t < 2 ^ 48) (ha : a < 2 ^ 12) (hb : b < 2 ^ 62) :
    pack t a b = t * 2 ^ 80 + 7 * 2 ^ 76 + a * 2 ^ 64 + 2 * 2 ^ 62 + b := by
  unfold pack
  rw [Nat.shiftLeft_eq, Nat.shiftLeft_eq, Nat.shiftLeft_eq, Nat.shiftLeft_eq]
  rw [lor_mul_pow_add 80 t (7 * 2 ^ 76) (by norm_num)]
  have e1 : t * 2 ^ 80 + 7 * 2 ^ 76 = (t * 16 + 7) * 2 ^ 76 := by ring
  rw [e1, lor_mul_pow_add 76 (t * 16 + 7) (a * 2 ^ 64) (by omega)]
  have e2 : (t * 16 + 7) * 2 ^ 76 + a * 2 ^ 64 = ((t * 16 + 7) * 2 ^ 12 + a) * 2 ^ 64 := by
    ring
  rw [e2, lor_mul_pow_add 64 ((t * 16 + 7) * 2 ^ 12 + a) (2 * 2 ^ 62) (by norm_num)]
  have e3 : ((t * 16 + 7) * 2 ^ 12 + a) * 2 ^ 64 + 2 * 2 ^ 62
      = (((t * 16 + 7) * 2 ^ 12 + a) * 4 + 2) * 2 ^ 62 := by ring
  rw [e3, lor_mul_pow_add 62 ((((t * 16 + 7) * 2 ^ 12 + a)) * 4 + 2) b hb]

theorem pack_lt {t a b : Nat} (ht : t < 2 ^ 48) (ha : a < 2 ^ 12) (hb : b < 2 ^ 62) :
    pack t a b < 2 ^ 128 := by
  rw [pack_eq ht ha hb]
  omega

/-! ## Structure of the hyphenated rendering -/

theorem addHyphens_decomp (u : Nat) (hu : u < 16 ^ 32) :
    addHyphens (hexPadM 32 u) =
      hexPadM 8 (u / 16 ^ 24) ++ '-' ::
        (hexPadM 4 (u / 16 ^ 20 % 16 ^ 4) ++ '-' ::
          (hexPadM 4 (u / 16 ^ 16 % 16 ^ 4) ++ '-' ::
            (hexPadM 4 (u / 16 ^ 12 % 16 ^ 4) ++ '-' ::
              hexPadM 12 (u % 16 ^ 12)))) := by
  have t8 : (hexPadM 32 u).take 8 = hexPadM 8 (u / 16 ^ 24) := hexPadM_take 8 24 u
  have d8 : (hexPadM 32 u).drop 8 = hexPadM 24 (u % 16 ^ 24) := hexPadM_drop 8 24 u hu
  have d12 : (hexPadM 32 u).drop 12 = hexPadM 20 (u % 16 ^ 20) := hexPadM_drop 12 20 u hu
  have d16 : (hexPadM 32 u).drop 16 = hexPadM 16 (u % 16 ^ 16) := hexPadM_drop 16 16 u hu
  have d20 : (hexPadM 32 u).drop 20 = hexPadM 12 (u % 16 ^ 12) := hexPadM_drop 20 12 u hu
  have t12 : (hexPadM 24 (u % 16 ^ 24)).take 4 = hexPadM 4 (u % 16 ^ 24 / 16 ^ 20) :=
    hexPadM_take 4 20 (u % 16 ^ 24)
  have t16 : (hexPadM 20 (u % 16 ^ 20)).take 4 = hexPadM 4 (u % 16 ^ 20 / 16 ^ 16) :=
    hexPadM_take 4 16 (u % 16 ^ 20)
  have t20 : (hexPadM 16 (u % 16 ^ 16)).take 4 = hexPadM 4 (u % 16 ^ 16 / 16 ^ 12) :=
    hexPadM_take 4 12 (u % 16 ^ 16)
  have m12 : u % 16 ^ 24 / 16 ^ 20 = u / 16 ^ 20 % 16 ^ 4 := by
    have e : (16 : Nat) ^ 24 = 16 ^ 20 * 16 ^ 4 := by norm_num
    rw [e, Nat.mod_mul_right_div_self]
  have m16 : u % 16 ^ 20 / 16 ^ 16 = u / 16 ^ 16 % 16 ^ 4 := by
    have e : (16 : Nat) ^ 20 = 16 ^ 16 * 16 ^ 4 := by norm_num
    rw [e, Nat.mod_mul_right_div_self]
  have m20 : u % 16 ^ 16 / 16 ^ 12 = u / 16 ^ 12 % 16 ^ 4 := by
    have e : (16 : Nat) ^ 16 = 16 ^ 12 * 16 ^ 4 := by norm_num
    rw [e, Nat.mod_mul_right_div_self]
  unfold addHyphens
  rw [t8, d8, d12, d16, d20, t12, t16, t20, m12, m16, m20]

theorem filter_addHyphens (cs : List Char) (h : ∀ c ∈ cs, (c != '-') = true) :
    (addHyphens cs).filter (fun c => c != '-') = cs := by
  unfold addHyphens
  have fp : ∀ t : List Char, t ⊆ cs → t.filter (fun c => c != '-') = t := by
    intro t ht
    exact List.filter_eq_self.mpr (fun a ha => h a (ht ha))
  rw [List.filter_append]
  rw [show (('-' :: ((cs.drop 8).take 4 ++ '-' ::
      ((cs.drop 12).take 4 ++ '-' :: ((cs.drop 16).take 4 ++ '-' :: cs.drop 20)))).filter
      (fun c => c != '-'))
    = (((cs.drop 8).take 4 ++ '-' ::
      ((cs.drop 12).take 4 ++ '-' :: ((cs.drop 16).take 4 ++ '-' :: cs.drop 20))).filter
      (fun c => c != '-')) from by simp]
  rw [List.filter_append]
  rw [show (('-' :: ((cs.drop 12).take 4 ++ '-' ::
      ((cs.drop 16).take 4 ++ '-' :: cs.drop 20))).filter (fun c => c != '-'))
    = (((cs.drop 12).take 4 ++ '-' ::
      ((cs.drop 16).take 4 ++ '-' :: cs.drop 20)).filter (fun c => c != '-')) from by simp]
  rw [List.filter_append]
  rw [show (('-' :: ((cs.drop 16).take 4 ++ '-' :: cs.drop 20)).filter (fun c => c != '-'))
    = (((cs.drop 16).take 4 ++ '-' :: cs.drop 20).filter (fun c => c != '-')) from by simp]
  rw [List.filter_append]
  rw [show (('-' :: cs.drop 20).filter (fun c => c != '-'))
    = ((cs.drop 20).filter (fun c => c != '-')) from by simp]
  rw [fp _ (List.take_subset _ _), fp _ ((List.take_subset _ _).trans (List.drop_subset _ _)),
    fp _ ((List.take_subset _ _).trans (List.drop_subset _ _)),
    fp _ ((List.take_subset _ _).trans (List.drop_subset _ _)),
    fp _ (List.drop_subset _ _)]
  have e20 : cs.drop 20 = ((cs.drop 16)).drop 4 := by rw [List.drop_drop]
  rw [e20, List.take_append_drop]
  have e16 : cs.drop 16 = ((cs.drop 12)).drop 4 := by rw [List.drop_drop]
  rw [e16, List.take_append_drop]
  have e12 : cs.drop 12 = ((cs.drop 8)).drop 4 := by rw [List.drop_drop]
  rw [e12, List.take_append_drop, List.take_append_drop]

theorem drop15_shape (A B C R : List Char) (hA : A.length = 8) (hB : B.length = 4)
    (hC : 1 ≤ C.length) :
    (A ++ '-' :: (B ++ '-' :: (C ++ R))).drop 15 = C.drop 1 ++ R := by
  rw [List.drop_append_eq_append_drop, hA]
  have e1 : A.drop 15 = [] := List.drop_eq_nil_of_le (by omega)
  rw [e1, List.nil_append]
  show (B ++ '-' :: (C ++ R)).drop 6 = _
  rw [List.drop_append_eq_append_drop, hB]
  have e2 : B.drop 6 = [] := List.drop_eq_nil_of_le (by omega)
  rw [e2, List.nil_append]
  show (C ++ R).drop 1 = _
  rw [List.drop_append_eq_append_drop]
  have e3 : R.drop (1 - C.length) = R := by
    have e : 1 - C.length = 0 := by omega
    rw [e, List.drop_zero]
  rw [e3]

/-! ## Characterization of `genRandParts` -/

theorem genRandParts_randA {v4 : Nat} (h : v4 < 2 ^ 128) :
    (genRandParts v4).randA = v4 / 2 ^ 64 % 2 ^ 12 := by
  have h16 : v4 < 16 ^ 32 := by omega
  show hexParse (((addHyphens (toHex32 v4)).drop 15).take 3) = _
  rw [toHex32_eq_hexPadM h, addHyphens_decomp v4 h16]
  rw [drop15_shape _ _ _ _ (hexPadM_length _ _) (hexPadM_length _ _)
    (by rw [hexPadM_length]; omega)]
  have hd : (hexPadM 4 (v4 / 16 ^ 16 % 16 ^ 4)).drop 1
      = hexPadM 3 (v4 / 16 ^ 16 % 16 ^ 4 % 16 ^ 3) :=
    hexPadM_drop 1 3 _ (Nat.mod_lt _ (by positivity))
  rw [hd, List.take_left' (hexPadM_length _ _)]
  rw [hexParse_hexPadM 3 _ (Nat.mod_lt _ (by positivity))]
  omega

theorem genRandParts_randB {v4 : Nat} (h : v4 < 2 ^ 128) :
    (genRandParts v4).randB = v4 % 2 ^ 62 := by
  have h16 : v4 < 16 ^ 32 := by omega
  show hexParse ((addHyphens (toHex32 v4)).filter (fun c => c != '-')) &&&
      ((1 <<< 62) - 1) = _
  rw [toHex32_eq_hexPadM h]
  rw [filter_addHyphens _ (fun c hc => hex_ne_hyphen (hexPadM_all_hex 32 v4 h16 c hc))]
  rw [hexParse_hexPadM 32 v4 h16]
  have e : (1 <<< 62 : Nat) - 1 = 2 ^ 62 - 1 := by norm_num [Nat.shiftLeft_eq]
  rw [e, Nat.and_pow_two_sub_one_eq_mod]

theorem genRandParts_eq {v4 : Nat} (h : v4 < 2 ^ 128) :
    genRandParts v4 = { randA := v4 / 2 ^ 64 % 2 ^ 12, randB := v4 % 2 ^ 62 } := by
  have h1 := genRandParts_randA h
  have h2 := genRandParts_randB h
  cases hg : genRandParts v4
  rw [hg] at h1 h2
  simp_all

theorem genRandParts_randA_lt {v4 : Nat} (h : v4 < 2 ^ 128) :
    (genRandParts v4).randA < 2 ^ 12 := by
  rw [genRandParts_randA h]
  omega

theorem genRandParts_randB_lt {v4 : Nat} (h : v4 < 2 ^ 128) :
    (genRandParts v4).randB < 2 ^ 62 := by
  rw [genRandParts_randB h]
  omega

/-! ## The validator, both directions -/

theorem hexRun_append (ds r : List Char) (h : ∀ c ∈ ds, isHexDigit c = true) :
    hexRun ds.length (ds ++ r) = some r := by
  induction ds with
  | nil => rfl
  | cons c s ih =>
    show hexRun (s.length + 1) (c :: (s ++ r)) = some r
    simp only [hexRun, h c (List.mem_cons_self c s), if_true]
    exact ih (fun d hd => h d (List.mem_cons_of_mem c hd))

theorem hexRun_inv : ∀ (k : Nat) (s r : List Char), hexRun k s = some r →
    ∃ ds, s = ds ++ r ∧ ds.length = k ∧ ∀ c ∈ ds, isHexDigit c = true := by
  intro k
  induction k with
  | zero =>
    intro s r h
    simp only [hexRun, Option.some_inj] at h
    exact ⟨[], by simp [h], rfl, by simp⟩
  | succ k ih =>
    intro s r h
    match s with
    | [] => simp [hexRun] at h
    | c :: s1 =>
      rw [hexRun] at h
      by_cases hc : isHexDigit c = true
      · rw [hc, if_pos rfl] at h
        obtain ⟨ds, h1, h2, h3⟩ := ih s1 r h
        refine ⟨c :: ds, by simp [h1], by simp [h2], ?_⟩
        intro d hd
        rcases List.mem_cons.mp hd with hd | hd
        · subst hd; exact hc
        · exact h3 d hd
      · rw [Bool.not_eq_true] at hc
        rw [hc] at h
        simp at h

theorem expectChar_inv {x : Char} {s r : List Char} (h : expectChar x s = some r) :
    s = x :: r := by
  match s with
  | [] => simp [expectChar] at h
  | c :: s1 =>
    rw [expectChar] at h
    by_cases hc : c = x
    · rw [if_pos hc] at h
      simp only [Option.some_inj] at h
      rw [hc, h]
    · rw [if_neg hc] at h
      simp at h

theorem expectVariant_inv {s r : List Char} (h : expectVariant s = some r) :
    ∃ c, s = c :: r ∧ isVariantChar c = true := by
  match s with
  | [] => simp [expectVariant] at h
  | c :: s1 =>
    rw [expectVariant] at h
    by_cases hc : isVariantChar c = true
    · rw [hc, if_pos rfl] at h
      simp only [Option.some_inj] at h
      exact ⟨c, by rw [h], hc⟩
    · rw [Bool.not_eq_true] at hc
      rw [hc] at h
      simp at h

theorem isValid_build (g1 g2 g3 g4 g5 : List Char) (vc : Char)
    (h1 : g1.length = 8) (h2 : g2.length = 4) (h3 : g3.length = 3)
    (h4 : g4.length = 3) (h5 : g5.length = 12)
    (x1 : ∀ c ∈ g1, isHexDigit c = true) (x2 : ∀ c ∈ g2, isHexDigit c = true)
    (x3 : ∀ c ∈ g3, isHexDigit c = true) (x4 : ∀ c ∈ g4, isHexDigit c = true)
    (x5 : ∀ c ∈ g5, isHexDigit c = true) (xv : isVariantChar vc = true) :
    isValid (g1 ++ '-' :: (g2 ++ '-' :: ('7' :: g3 ++ '-' :: (vc :: g4 ++ '-' :: g5)))) = true := by
  unfold isValid
  have e1 : hexRun 8 (g1 ++ '-' :: (g2 ++ '-' :: ('7' :: g3 ++ '-' :: (vc :: g4 ++ '-' :: g5))))
      = some ('-' :: (g2 ++ '-' :: ('7' :: g3 ++ '-' :: (vc :: g4 ++ '-' :: g5)))) := by
    rw [← h1]
    exact hexRun_append g1 _ x1
  rw [e1, Option.some_bind]
  rw [show expectChar '-' ('-' :: (g2 ++ '-' :: ('7' :: g3 ++ '-' :: (vc :: g4 ++ '-' :: g5))))
      = some (g2 ++ '-' :: ('7' :: g3 ++ '-' :: (vc :: g4 ++ '-' :: g5))) from by
    simp [expectChar]]
  rw [Option.some_bind]
  have e2 : hexRun 4 (g2 ++ '-' :: ('7' :: g3 ++ '-' :: (vc :: g4 ++ '-' :: g5)))
      = some ('-' :: ('7' :: g3 ++ '-' :: (vc :: g4 ++ '-' :: g5))) := by
    rw [← h2]
    exact hexRun_append g2 _ x2
  rw [e2, Option.some_bind]
  rw [show expectChar '-' ('-' :: ('7' :: g3 ++ '-' :: (vc :: g4 ++ '-' :: g5)))
      = some ('7' :: g3 ++ '-' :: (vc :: g4 ++ '-' :: g5)) from by simp [expectChar]]
  rw [Option.some_bind]
  rw [show expectChar '7' (('7' :: g3) ++ '-' :: (vc :: g4 ++ '-' :: g5))
      = some (g3 ++ '-' :: (vc :: g4 ++ '-' :: g5)) from by simp [expectChar]]
  rw [Option.some_bind]
  have e3 : hexRun 3 (g3 ++ '-' :: (vc :: g4 ++ '-' :: g5))
      = some ('-' :: (vc :: g4 ++ '-' :: g5)) := by
    rw [← h3]
    exact hexRun_append g3 _ x3
  rw [e3, Option.some_bind]
  rw [show expectChar '-' ('-' :: (vc :: g4 ++ '-' :: g5))
      = some (vc :: g4 ++ '-' :: g5) from by simp [expectChar]]
  rw [Option.some_bind]
  rw [show expectVariant ((vc :: g4) ++ '-' :: g5) = some (g4 ++ '-' :: g5) from by
    simp [expectVariant, xv]]
  rw [Option.some_bind]
  have e4 : hexRun 3 (g4 ++ '-' :: g5) = some ('-' :: g5) := by
    rw [← h4]
    exact hexRun_append g4 _ x4
  rw [e4, Option.some_bind]
  rw [show expectChar '-' ('-' :: g5) = some g5 from by simp [expectChar]]
  rw [Option.some_bind]
  have e5 : hexRun 12 g5 = some [] := by
    rw [← h5, show g5 = g5 ++ [] from by simp]
    rw [show (g5 ++ ([] : List Char)).length = g5.length from by simp]
    exact hexRun_append g5 [] x5
  rw [e5]

theorem isValid_decomp {s : List Char} (h : isValid s = true) :
    ∃ g1 g2 g3 g4 g5 vc,
      s = g1 ++ '-' :: (g2 ++ '-' :: ('7' :: g3 ++ '-' :: (vc :: g4 ++ '-' :: g5))) ∧
        g1.length = 8 ∧ g2.length = 4 ∧ g3.length = 3 ∧ g4.length = 3 ∧
        g5.length = 12 ∧
        (∀ c ∈ g1, isHexDigit c = true) ∧ (∀ c ∈ g2, isHexDigit c = true) ∧
        (∀ c ∈ g3, isHexDigit c = true) ∧ (∀ c ∈ g4, isHexDigit c = true) ∧
        (∀ c ∈ g5, isHexDigit c = true) ∧ isVariantChar vc = true := by
  unfold isValid at h
  cases e1 : hexRun 8 s with
  | none => rw [e1] at h; simp at h
  | some r1 =>
  rw [e1, Option.some_bind] at h
  cases e2 : expectChar '-' r1 with
  | none => rw [e2] at h; simp at h
  | some r2 =>
  rw [e2, Option.some_bind] at h
  cases e3 : hexRun 4 r2 with
  | none => rw [e3] at h; simp at h
  | some r3 =>
  rw [e3, Option.some_bind] at h
  cases e4 : expectChar '-' r3 with
  | none => rw [e4] at h; simp at h
  | some r4 =>
  rw [e4, Option.some_bind] at h
  cases e5 : expectChar '7' r4 with
  | none => rw [e5] at h; simp at h
  | some r5 =>
  rw [e5, Option.some_bind] at h
  cases e6 : hexRun 3 r5 with
  | none => rw [e6] at h; simp at h
  | some r6 =>
  rw [e6, Option.some_bind] at h
  cases e7 : expectChar '-' r6 with
  | none => rw [e7] at h; simp at h
  | some r7 =>
  rw [e7, Option.some_bind] at h
  cases e8 : expectVariant r7 with
  | none => rw [e8] at h; simp at h
  | some r8 =>
  rw [e8, Option.some_bind] at h
  cases e9 : hexRun 3 r8 with
  | none => rw [e9] at h; simp at h
  | some r9 =>
  rw [e9, Option.some_bind] at h
  cases e10 : expectChar '-' r9 with
  | none => rw [e10] at h; simp at h
  | some r10 =>
  rw [e10, Option.some_bind] at h
  cases e11 : hexRun 12 r10 with
  | none => rw [e11] at h; simp at h
  | some r11 =>
  rw [e11] at h
  match r11, h with
  | [], _ =>
  obtain ⟨g1, q1, l1, f1⟩ := hexRun_inv 8 s r1 e1
  have q2 := expectChar_inv e2
  obtain ⟨g2, q3, l2, f2⟩ := hexRun_inv 4 r2 r3 e3
  have q4 := expectChar_inv e4
  have q5 := expectChar_inv e5
  obtain ⟨g3, q6, l3, f3⟩ := hexRun_inv 3 r5 r6 e6
  have q7 := expectChar_inv e7
  obtain ⟨vc, q8, xv⟩ := expectVariant_inv e8
  obtain ⟨g4, q9, l4, f4⟩ := hexRun_inv 3 r8 r9 e9
  have q10 := expectChar_inv e10
  obtain ⟨g5, q11, l5, f5⟩ := hexRun_inv 12 r10 [] e11
  rw [List.append_nil] at q11
  refine ⟨g1, g2, g3, g4, g5, vc, ?_, l1, l2, l3, l4, l5, f1, f2, f3, f4, f5, xv⟩
  rw [q1, q2, q3, q4, q5, q6, q7, q8, q9, q10, q11]
  simp

theorem isValid_render {t a b : Nat} (ht : t < 2 ^ 48) (ha : a < 2 ^ 12) (hb : b < 2 ^ 62) :
    isValid (render (pack t a b)) = true := by
  have hu : pack t a b < 2 ^ 128 := pack_lt ht ha hb
  have hsum := pack_eq ht ha hb
  set u := pack t a b with hu_def
  have h16 : u < 16 ^ 32 := by omega
  unfold render
  rw [toHex32_eq_hexPadM hu, addHyphens_decomp u h16]
  have hver : u / 16 ^ 16 % 16 ^ 4 / 16 ^ 3 = 7 := by omega
  have hvar : u / 16 ^ 12 % 16 ^ 4 / 16 ^ 3 = 8 + b / 2 ^ 60 := by omega
  have hq : b / 2 ^ 60 < 4 := by omega
  have eC : hexPadM 4 (u / 16 ^ 16 % 16 ^ 4)
      = '7' :: hexPadM 3 (u / 16 ^ 16 % 16 ^ 4 % 16 ^ 3) := by
    show hexChar (u / 16 ^ 16 % 16 ^ 4 / 16 ^ 3) :: _ = _
    rw [hver]
    rfl
  have eD : hexPadM 4 (u / 16 ^ 12 % 16 ^ 4)
      = hexChar (8 + b / 2 ^ 60) :: hexPadM 3 (u / 16 ^ 12 % 16 ^ 4 % 16 ^ 3) := by
    show hexChar (u / 16 ^ 12 % 16 ^ 4 / 16 ^ 3) :: _ = _
    rw [hvar]
  rw [eC, eD]
  exact isValid_build (hexPadM 8 (u / 16 ^ 24)) (hexPadM 4 (u / 16 ^ 20 % 16 ^ 4))
    (hexPadM 3 (u / 16 ^ 16 % 16 ^ 4 % 16 ^ 3)) (hexPadM 3 (u / 16 ^ 12 % 16 ^ 4 % 16 ^ 3))
    (hexPadM 12 (u % 16 ^ 12)) (hexChar (8 + b / 2 ^ 60))
    (hexPadM_length _ _) (hexPadM_length _ _) (hexPadM_length _ _)
    (hexPadM_length _ _) (hexPadM_length _ _)
    (hexPadM_all_hex 8 _ (by omega))
    (hexPadM_all_hex 4 _ (by omega))
    (hexPadM_all_hex 3 _ (by omega))
    (hexPadM_all_hex 3 _ (by omega))
    (hexPadM_all_hex 12 _ (by omega))
    (by
      have h8 : 8 + b / 2 ^ 60 < 12 := by omega
      interval_cases h : b / 2 ^ 60 <;> decide)

/-! ## Lexicographic order of rendered strings -/

theorem lexLt_cons_same (c : Char) (x y : List Char) :
    lexLt (c :: x) (c :: y) = lexLt x y := by
  simp only [lexLt, if_neg (lt_irrefl c)]

theorem hexPadM_lexLt : ∀ w m n, m < n → n < 16 ^ w →
    lexLt (hexPadM w m) (hexPadM w n) = true := by
  intro w
  induction w with
  | zero => intro m n h1 h2; omega
  | succ w ih =>
    intro m n h1 h2
    have hnd : n / 16 ^ w < 16 := by
      rw [Nat.div_lt_iff_lt_mul (by positivity)]
      calc n < 16 ^ (w + 1) := h2
        _ = 16 * 16 ^ w := by rw [pow_succ']
    show lexLt (hexChar (m / 16 ^ w) :: hexPadM w (m % 16 ^ w))
        (hexChar (n / 16 ^ w) :: hexPadM w (n % 16 ^ w)) = true
    by_cases hd : m / 16 ^ w < n / 16 ^ w
    · simp only [lexLt, if_pos (hexChar_lt_hexChar hd hnd)]
    · have hde : m / 16 ^ w = n / 16 ^ w :=
        Nat.le_antisymm (Nat.div_le_div_right (Nat.le_of_lt h1)) (Nat.not_lt.mp hd)
      rw [hde, lexLt_cons_same]
      apply ih
      · have e1 := Nat.div_add_mod m (16 ^ w)
        have e2 := Nat.div_add_mod n (16 ^ w)
        rw [hde] at e1
        omega
      · exact Nat.mod_lt _ (by positivity)

theorem lexLt_append_of_lt : ∀ (u v x y : List Char), lexLt u v = true →
    u.length = v.length → lexLt (u ++ x) (v ++ y) = true := by
  intro u
  induction u with
  | nil =>
    intro v x y h hl
    match v with
    | [] => simp [lexLt] at h
    | _ :: _ => simp at hl
  | cons a u ih =>
    intro v x y h hl
    match v with
    | [] => simp at hl
    | b :: v =>
      simp only [List.length_cons, Nat.add_right_cancel_iff] at hl
      by_cases hab : a < b
      · show lexLt (a :: (u ++ x)) (b :: (v ++ y)) = true
        simp only [lexLt, if_pos hab]
      · by_cases hba : b < a
        · simp only [lexLt, if_neg hab, if_pos hba] at h
          exact Bool.noConfusion h
        · have heq : a = b := le_antisymm (le_of_not_lt hba) (le_of_not_lt hab)
          subst heq
          rw [lexLt_cons_same] at h
          show lexLt (a :: (u ++ x)) (a :: (v ++ y)) = true
          rw [lexLt_cons_same]
          exact ih v x y h hl

theorem lexLt_append_same : ∀ (u x y : List Char), lexLt x y = true →
    lexLt (u ++ x) (u ++ y) = true := by
  intro u
  induction u with
  | nil => intro x y h; simpa using h
  | cons c u ih =>
    intro x y h
    show lexLt (c :: (u ++ x)) (c :: (u ++ y)) = true
    rw [lexLt_cons_same]
    exact ih x y h

theorem lexLt_append_decomp : ∀ (u v x y : List Char),
    lexLt (u ++ x) (v ++ y) = true → u.length = v.length →
    lexLt u v = true ∨ (u = v ∧ lexLt x y = true) := by
  intro u
  induction u with
  | nil =>
    intro v x y h hl
    match v with
    | [] => exact Or.inr ⟨rfl, by simpa using h⟩
    | _ :: _ => simp at hl
  | cons a u ih =>
    intro v x y h hl
    match v with
    | [] => simp at hl
    | b :: v =>
      simp only [List.length_cons, Nat.add_right_cancel_iff] at hl
      by_cases hab : a < b
      · left
        simp only [lexLt, if_pos hab]
      · by_cases hba : b < a
        · rw [List.cons_append, List.cons_append] at h
          simp only [lexLt, if_neg hab, if_pos hba] at h
          exact Bool.noConfusion h
        · have heq : a = b := le_antisymm (le_of_not_lt hba) (le_of_not_lt hab)
          subst heq
          rw [List.cons_append, List.cons_append, lexLt_cons_same] at h
          rcases ih v x y h hl with h1 | ⟨h1, h2⟩
          · left
            rw [lexLt_cons_same]
            exact h1
          · right
            exact ⟨by rw [h1], h2⟩

theorem addHyphens_lexLt {cs ds : List Char} (hc : cs.length = 32) (hd : ds.length = 32)
    (h : lexLt cs ds = true) : lexLt (addHyphens cs) (addHyphens ds) = true := by
  unfold addHyphens
  rw [(List.take_append_drop 8 cs).symm, (List.take_append_drop 8 ds).symm] at h
  have hlen1 : (cs.take 8).length = (ds.take 8).length := by
    simp [List.length_take, hc, hd]
  rcases lexLt_append_decomp _ _ _ _ h hlen1 with h1 | ⟨h1, h2⟩
  · exact lexLt_append_of_lt _ _ _ _ h1 hlen1
  rw [h1]
  apply lexLt_append_same
  rw [lexLt_cons_same]
  rw [(List.take_append_drop 4 (cs.drop 8)).symm,
    (List.take_append_drop 4 (ds.drop 8)).symm] at h2
  have hlen2 : ((cs.drop 8).take 4).length = ((ds.drop 8).take 4).length := by
    simp [List.length_take, List.length_drop, hc, hd]
  rcases lexLt_append_decomp _ _ _ _ h2 hlen2 with h3 | ⟨h3, h4⟩
  · exact lexLt_append_of_lt _ _ _ _ h3 hlen2
  rw [h3]
  apply lexLt_append_same
  rw [lexLt_cons_same]
  rw [List.drop_drop, List.drop_drop] at h4
  norm_num at h4
  rw [(List.take_append_drop 4 (cs.drop 12)).symm,
    (List.take_append_drop 4 (ds.drop 12)).symm] at h4
  have hlen3 : ((cs.drop 12).take 4).length = ((ds.drop 12).take 4).length := by
    simp [List.length_take, List.length_drop, hc, hd]
  rcases lexLt_append_decomp _ _ _ _ h4 hlen3 with h5 | ⟨h5, h6⟩
  · exact lexLt_append_of_lt _ _ _ _ h5 hlen3
  rw [h5]
  apply lexLt_append_same
  rw [lexLt_cons_same]
  rw [List.drop_drop, List.drop_drop] at h6
  norm_num at h6
  rw [(List.take_append_drop 4 (cs.drop 16)).symm,
    (List.take_append_drop 4 (ds.drop 16)).symm] at h6
  have hlen4 : ((cs.drop 16).take 4).length = ((ds.drop 16).take 4).length := by
    simp [List.length_take, List.length_drop, hc, hd]
  rcases lexLt_append_decomp _ _ _ _ h6 hlen4 with h7 | ⟨h7, h8⟩
  · exact lexLt_append_of_lt _ _ _ _ h7 hlen4
  rw [h7]
  apply lexLt_append_same
  rw [lexLt_cons_same]
  rw [List.drop_drop, List.drop_drop] at h8
  norm_num at h8
  exact h8

theorem lexLt_render {m n : Nat} (hm : m < n) (hn : n < 2 ^ 128) :
    lexLt (render m) (render n) = true := by
  have hm128 : m < 2 ^ 128 := lt_trans hm hn
  unfold render
  rw [toHex32_eq_hexPadM hm128, toHex32_eq_hexPadM hn]
  exact addHyphens_lexLt (hexPadM_length _ _) (hexPadM_length _ _)
    (hexPadM_lexLt 32 m n hm (by omega))

/-! ## The clock-driven generation loop -/

theorem genBody_fresh {s : GenState} {e : Env} (h : s.lastTimestamp < (e.now : Int)) :
    genBody s e =
      ({ s with
          lastTimestamp := (e.now : Int)
          lastRandA := (genRandParts e.fresh).randA
          lastRandB := (genRandParts e.fresh).randB },
        Ctl.emit (pack e.now (genRandParts e.fresh).randA (genRandParts e.fresh).randB)) := by
  unfold genBody
  rw [if_pos h]

theorem genBody_regression {s : GenState} {e : Env} (h : (e.now : Int) < s.lastTimestamp) :
    genBody s e = (s, Ctl.retry) := by
  unfold genBody
  rw [if_neg (by omega), if_pos h]

theorem genBody_tie_no_overflow {s : GenState} {e : Env}
    (ht : s.lastTimestamp = (e.now : Int))
    (hov : s.lastRandB + (e.step + 1) ≤ 2 ^ 62 - 1) :
    genBody s e =
      ({ s with
          lastTimestamp := (e.now : Int)
          lastRandA := s.lastRandA
          lastRandB := s.lastRandB + (e.step + 1) },
        Ctl.emit (pack e.now s.lastRandA (s.lastRandB + (e.step + 1)))) := by
  unfold genBody
  rw [if_neg (by omega), if_neg (by omega), if_neg (by omega)]

theorem genBody_tie_overflow_emit {s : GenState} {e : Env}
    (ht : s.lastTimestamp = (e.now : Int))
    (hov : s.lastRandB + (e.step + 1) > 2 ^ 62 - 1)
    (hA : s.lastRandA + 1 ≤ 2 ^ 12 - 1) :
    genBody s e =
      ({ s with
          lastTimestamp := (e.now : Int)
          lastRandA := s.lastRandA + 1
          lastRandB := (genRandParts e.fresh2).randB },
        Ctl.emit (pack e.now (s.lastRandA + 1) (genRandParts e.fresh2).randB)) := by
  unfold genBody
  rw [if_neg (by omega), if_neg (by omega), if_pos (by omega), if_neg (by omega)]

theorem genBody_tie_overflow_retry {s : GenState} {e : Env}
    (ht : s.lastTimestamp = (e.now : Int))
    (hov : s.lastRandB + (e.step + 1) > 2 ^ 62 - 1)
    (hA : s.lastRandA + 1 > 2 ^ 12 - 1) :
    genBody s e = (s, Ctl.retry) := by
  unfold genBody
  rw [if_neg (by omega), if_neg (by omega), if_pos (by omega), if_pos (by omega)]

theorem genBody_retry_frame {s s1 : GenState} {e : Env}
    (h : genBody s e = (s1, Ctl.retry)) : s1 = s := by
  rcases lt_trichotomy ((e.now : Int)) s.lastTimestamp with hc | hc | hc
  · rw [genBody_regression hc] at h
    exact (congrArg Prod.fst h).symm
  · by_cases hov : s.lastRandB + (e.step + 1) ≤ 2 ^ 62 - 1
    · rw [genBody_tie_no_overflow hc.symm hov] at h
      exact absurd (congrArg Prod.snd h) (by simp)
    · by_cases hA : s.lastRandA + 1 ≤ 2 ^ 12 - 1
      · rw [genBody_tie_overflow_emit hc.symm (by omega) hA] at h
        exact absurd (congrArg Prod.snd h) (by simp)
      · rw [genBody_tie_overflow_retry hc.symm (by omega) (by omega)] at h
        exact (congrArg Prod.fst h).symm
  · rw [genBody_fresh hc] at h
    exact absurd (congrArg Prod.snd h) (by simp)

theorem genBody_emit_gt {s s1 : GenState} {e : Env} {u : Nat}
    (hcons : Consistent s) (hwf : EnvWf e)
    (h : genBody s e = (s1, Ctl.emit u)) :
    s.lastUUID < (u : Int) ∧
      u = pack e.now s1.lastRandA s1.lastRandB ∧
      s1.lastTimestamp = (e.now : Int) ∧ s1.lastUUID = s.lastUUID ∧
      s1.lastRandA < 2 ^ 12 ∧ s1.lastRandB < 2 ^ 62 := by
  obtain ⟨⟨hwa, hwb, hts1, hts2⟩, hdisj⟩ := hcons
  obtain ⟨hnow, hfresh, hstep, hfresh2⟩ := hwf
  rcases lt_trichotomy ((e.now : Int)) s.lastTimestamp with hc | hc | hc
  · rw [genBody_regression hc] at h
    exact absurd (congrArg Prod.snd h) (by simp)
  · -- timestamp tie (monotonic-counter path)
    have hts : s.lastTimestamp = (e.now : Int) := hc.symm
    have hR : s.lastUUID = ((pack e.now s.lastRandA s.lastRandB : Nat) : Int) := by
      rcases hdisj with ⟨h1, _⟩ | ⟨_, h2⟩
      · rw [h1] at hts; omega
      · rw [h2, hts]
        norm_num
    have hpack0 := pack_eq (t := e.now) hnow hwa hwb
    by_cases hov : s.lastRandB + (e.step + 1) ≤ 2 ^ 62 - 1
    · rw [genBody_tie_no_overflow hts hov] at h
      injection h with hs1 hctl
      injection hctl with hu
      subst hs1
      subst hu
      refine ⟨?_, rfl, rfl, rfl, by simpa using hwa, by simp; omega⟩
      rw [hR]
      have hp := pack_eq (t := e.now) hnow hwa (by omega :
        s.lastRandB + (e.step + 1) < 2 ^ 62)
      have hlt : pack e.now s.lastRandA s.lastRandB
          < pack e.now s.lastRandA (s.lastRandB + (e.step + 1)) := by omega
      exact_mod_cast hlt
    · by_cases hA : s.lastRandA + 1 ≤ 2 ^ 12 - 1
      · rw [genBody_tie_overflow_emit hts (by omega) hA] at h
        injection h with hs1 hctl
        injection hctl with hu
        subst hs1
        subst hu
        have hb2 : (genRandParts e.fresh2).randB < 2 ^ 62 := genRandParts_randB_lt hfresh2
        refine ⟨?_, rfl, rfl, rfl, by simp; omega, by simpa using hb2⟩
        rw [hR]
        have hp := pack_eq (t := e.now) hnow (by omega : s.lastRandA + 1 < 2 ^ 12) hb2
        have hlt : pack e.now s.lastRandA s.lastRandB
            < pack e.now (s.lastRandA + 1) ((genRandParts e.fresh2).randB) := by omega
        exact_mod_cast hlt
      · rw [genBody_tie_overflow_retry hts (by omega) (by omega)] at h
        exact absurd (congrArg Prod.snd h) (by simp)
  · -- fresh-timestamp path
    rw [genBody_fresh hc] at h
    injection h with hs1 hctl
    injection hctl with hu
    subst hs1
    subst hu
    have ha2 : (genRandParts e.fresh).randA < 2 ^ 12 := genRandParts_randA_lt hfresh
    have hb2 : (genRandParts e.fresh).randB < 2 ^ 62 := genRandParts_randB_lt hfresh
    refine ⟨?_, rfl, rfl, rfl, by simpa using ha2, by simpa using hb2⟩
    have hp := pack_eq (t := e.now) hnow ha2 hb2
    rcases hdisj with ⟨_, h2⟩ | ⟨h1, h2⟩
    · rw [h2]
      have : (0 : Int) ≤ ((pack e.now (genRandParts e.fresh).randA
          (genRandParts e.fresh).randB : Nat) : Int) := Int.natCast_nonneg _
      omega
    · rw [h2]
      have htlt : s.lastTimestamp.toNat < e.now := by omega
      have htlt48 : s.lastTimestamp.toNat < 2 ^ 48 := by omega
      have hp0 := pack_eq (t := s.lastTimestamp.toNat) htlt48 hwa hwb
      have : pack s.lastTimestamp.toNat s.lastRandA s.lastRandB
          < pack e.now (genRandParts e.fresh).randA (genRandParts e.fresh).randB := by
        omega
      exact_mod_cast this

theorem genLoop_sound : ∀ (envs : List Env) (s s2 : GenState) (u : Nat) (rest : List Env),
    Consistent s → (∀ e ∈ envs, EnvWf e) →
    genLoop s envs = some (s2, u, rest) →
    s.lastUUID < (u : Int) ∧ s2.lastUUID = (u : Int) ∧ Consistent s2 ∧
      (∀ e ∈ rest, EnvWf e) ∧
      ∃ t a b, t < 2 ^ 48 ∧ a < 2 ^ 12 ∧ b < 2 ^ 62 ∧ u = pack t a b := by
  intro envs
  induction envs with
  | nil =>
    intro s s2 u rest _ _ h
    exact absurd h (by simp [genLoop])
  | cons e es ih =>
    intro s s2 u rest hcons hwf h
    rw [genLoop] at h
    cases hb : genBody s e with
    | mk s1 ctl =>
    rw [hb] at h
    cases ctl with
    | retry =>
      have hfr := genBody_retry_frame hb
      subst hfr
      have h2 : genLoop s1 es = some (s2, u, rest) := h
      exact ih s1 s2 u rest hcons (fun x hx => hwf x (List.mem_cons_of_mem e hx)) h2
    | emit v =>
      obtain ⟨hgt, hupack, hts, huuid, ha, hbnd⟩ :=
        genBody_emit_gt hcons (hwf e (List.mem_cons_self e es)) hb
      have h2 : (if s1.lastUUID ≥ ((v : Nat) : Int) then genLoop s1 es
          else some ({ s1 with lastUUID := ((v : Nat) : Int) }, v, es))
          = some (s2, u, rest) := h
      rw [if_neg (by omega)] at h2
      injection h2 with h3
      injection h3 with h4 h5
      injection h5 with h6 h7
      subst h4
      subst h6
      subst h7
      have hnow48 := (hwf e (List.mem_cons_self e es)).1
      refine ⟨hgt, rfl, ?_,
        fun x hx => hwf x (List.mem_cons_of_mem e hx),
        ⟨e.now, s1.lastRandA, s1.lastRandB, hnow48, ha, hbnd, hupack⟩⟩
      refine ⟨⟨by simpa using ha, by simpa using hbnd, ?_, ?_⟩, Or.inr ⟨?_, ?_⟩⟩
      · show (-1 : Int) ≤ s1.lastTimestamp
        rw [hts]
        omega
      · show s1.lastTimestamp < 2 ^ 48
        rw [hts]
        exact_mod_cast hnow48
      · show (0 : Int) ≤ s1.lastTimestamp
        rw [hts]
        omega
      · show ((v : Nat) : Int)
          = ((pack s1.lastTimestamp.toNat s1.lastRandA s1.lastRandB : Nat) : Int)
        rw [hts]
        norm_num
        exact_mod_cast hupack

theorem consistent_initState : Consistent initState :=
  ⟨⟨by norm_num [initState], by norm_num [initState], by norm_num [initState],
    by norm_num [initState]⟩, Or.inl ⟨rfl, rfl⟩⟩

theorem genCalls_sound : ∀ (n : Nat) (s s2 : GenState) (envs rest : List Env) (us : List Nat),
    Consistent s → (∀ e ∈ envs, EnvWf e) →
    genCalls n s envs = some (s2, us, rest) →
    us.length = n ∧
      List.Chain (fun a b : Int => a < b) s.lastUUID (us.map Int.ofNat) ∧
      (∀ u ∈ us, u < 2 ^ 128) ∧ Consistent s2 := by
  intro n
  induction n with
  | zero =>
    intro s s2 envs rest us hcons hwf h
    have h2 : (some (s, ([] : List Nat), envs) : Option (GenState × List Nat × List Env))
        = some (s2, us, rest) := h
    injection h2 with h3
    injection h3 with h4 h5
    injection h5 with h6 h7
    subst h4
    subst h6
    exact ⟨rfl, List.Chain.nil, by simp, hcons⟩
  | succ n ih =>
    intro s s2 envs rest us hcons hwf h
    rw [genCalls] at h
    cases hL : genLoop s envs with
    | none => rw [hL] at h; exact absurd h (by simp)
    | some r =>
      obtain ⟨s1, u, rest1⟩ := r
      rw [hL] at h
      have hm : (match genCalls n s1 rest1 with
          | none => none
          | some (s3, us1, rest2) => some (s3, u :: us1, rest2))
          = some (s2, us, rest) := h
      cases hC : genCalls n s1 rest1 with
      | none => rw [hC] at hm; exact absurd hm (by simp)
      | some r2 =>
        obtain ⟨s3, us1, rest2⟩ := r2
        rw [hC] at hm
        have h2 : (some (s3, u :: us1, rest2) : Option (GenState × List Nat × List Env))
            = some (s2, us, rest) := hm
        injection h2 with h3
        injection h3 with h4 h5
        injection h5 with h6 h7
        subst h4
        subst h6
        subst h7
        obtain ⟨hgt, hu1, hcons1, hwfrest, t, a, b, ht48, ha, hb, hup⟩ :=
          genLoop_sound envs s s1 u rest1 hcons hwf hL
        obtain ⟨hlen, hchain, hbound, hcons3⟩ := ih s1 s3 rest1 rest2 us1 hcons1 hwfrest hC
        refine ⟨by simp [hlen], ?_, ?_, hcons3⟩
        · rw [List.map_cons]
          have hc2 := hchain
          rw [hu1] at hc2
          exact List.Chain.cons hgt hc2
        · intro x hx
          rcases List.mem_cons.mp hx with hx | hx
          · subst hx
            rw [hup]
            exact pack_lt ht48 ha hb
          · exact hbound x hx

/-- Claim C1: for every `n ≥ 1`, the sequence of `n` identifiers produced by
successive calls to `gen()` (with no custom timestamp) on a single
clock-driven generator instance is strictly increasing, both as 128-bit
integers and in lexicographic order of the canonical hyphenated hex
strings. (`Consistent` holds for the fresh instance and is preserved by
every call; the environment hypotheses say the clock fits 48 bits and the
random sources have their documented widths.) -/
theorem claim_C1_monotonic (n : Nat) (hn : 1 ≤ n) (s s2 : GenState)
    (envs rest : List Env) (us : List Nat)
    (hcons : Consistent s) (hwf : ∀ e ∈ envs, EnvWf e)
    (h : genCalls n s envs = some (s2, us, rest)) :
    us.length = n ∧ List.Pairwise (fun a b : Nat => a < b) us ∧
      List.Pairwise (fun x y => lexLt x y = true) (us.map render) := by
  obtain ⟨hlen, hchain, hbound, _⟩ := genCalls_sound n s s2 envs rest us hcons hwf h
  have hpw : List.Pairwise (fun a b : Int => a < b) (s.lastUUID :: us.map Int.ofNat) :=
    List.chain_iff_pairwise.mp hchain
  have hpwInt : List.Pairwise (fun a b : Int => a < b) (us.map Int.ofNat) :=
    List.Pairwise.of_cons hpw
  have hpwNat : List.Pairwise (fun a b : Nat => a < b) us := by
    rw [List.pairwise_map] at hpwInt
    exact hpwInt.imp (fun {a b} hab => Int.ofNat_lt.mp hab)
  refine ⟨hlen, hpwNat, ?_⟩
  rw [List.pairwise_map]
  exact List.Pairwise.imp_of_mem
    (fun {a b} ha hb hab => lexLt_render hab (hbound b hb)) hpwNat

/-- Witness for C1 at a concrete run: two calls on a fresh instance, the
second on the same millisecond (counter path). -/
theorem claim_C1_monotonic_witness :
    [pack 1 0 0, pack 1 0 6].length = 2 ∧
      List.Pairwise (fun a b : Nat => a < b) [pack 1 0 0, pack 1 0 6] ∧
      List.Pairwise (fun x y => lexLt x y = true) ([pack 1 0 0, pack 1 0 6].map render) :=
  claim_C1_monotonic 2 (by norm_num) initState
    ⟨1, 0, 6, (pack 1 0 6 : Int)⟩ [⟨1, 0, 0, 0⟩, ⟨1, 0, 5, 0⟩] []
    [pack 1 0 0, pack 1 0 6] consistent_initState
    (by
      intro e he
      fin_cases he <;> exact ⟨by norm_num, by norm_num, by norm_num, by norm_num⟩)
    (by decide)

/-- Claim C4: within one call to the clock-driven `gen()`, the state fields
are written only together, once, by the attempt that produces the returned
identifier: the environments before the successful one all "continue" with
every state field unchanged, and the successful attempt's packed value
strictly exceeds `#lastUUID` (so the loop commits all four fields together
and exits immediately; in particular a completed body never has to be
retried from a consistent state). -/
theorem claim_C4_frame (s : GenState) (envs : List Env) (s2 : GenState) (u : Nat)
    (rest : List Env) (hcons : Consistent s) (hwf : ∀ e ∈ envs, EnvWf e)
    (h : genLoop s envs = some (s2, u, rest)) :
    ∃ dropped e, envs = dropped ++ e :: rest ∧
      (∀ e2 ∈ dropped, genBody s e2 = (s, Ctl.retry)) ∧
      ∃ sc, genBody s e = (sc, Ctl.emit u) ∧
        s.lastUUID < (u : Int) ∧
        s2 = { sc with lastUUID := (u : Int) } ∧
        sc.lastUUID = s.lastUUID ∧ sc.lastTimestamp = (e.now : Int) := by
  induction envs generalizing s with
  | nil => exact absurd h (by simp [genLoop])
  | cons e es ih =>
    rw [genLoop] at h
    cases hb : genBody s e with
    | mk s1 ctl =>
    rw [hb] at h
    cases ctl with
    | retry =>
      have hfr := genBody_retry_frame hb
      subst hfr
      have h2 : genLoop s1 es = some (s2, u, rest) := h
      obtain ⟨dropped, e2, hsplit, hdrop, sc, hemit, hgt, hs2, hsc1, hsc2⟩ :=
        ih s1 hcons (fun x hx => hwf x (List.mem_cons_of_mem e hx)) h2
      refine ⟨e :: dropped, e2, by rw [hsplit, List.cons_append], ?_, sc, hemit, hgt,
        hs2, hsc1, hsc2⟩
      intro x hx
      rcases List.mem_cons.mp hx with hx | hx
      · subst hx; exact hb
      · exact hdrop x hx
    | emit v =>
      obtain ⟨hgt, hupack, hts, huuid, ha, hbnd⟩ :=
        genBody_emit_gt hcons (hwf e (List.mem_cons_self e es)) hb
      have h2 : (if s1.lastUUID ≥ ((v : Nat) : Int) then genLoop s1 es
          else some ({ s1 with lastUUID := ((v : Nat) : Int) }, v, es))
          = some (s2, u, rest) := h
      rw [if_neg (by omega)] at h2
      injection h2 with h3
      injection h3 with h4 h5
      injection h5 with h6 h7
      subst h4
      subst h6
      subst h7
      exact ⟨[], e, rfl, by simp, s1, hb, hgt, rfl, huuid, hts⟩

/-- Witness for C4: one clock-regression retry followed by a successful
fresh-timestamp attempt, from a committed (consistent) state. -/
theorem claim_C4_frame_witness :
    ∃ dropped e,
      [(⟨3, 0, 0, 0⟩ : Env), ⟨6, 0, 0, 0⟩] = dropped ++ e :: [] ∧
      (∀ e2 ∈ dropped,
        genBody ⟨5, 1, 2, (pack 5 1 2 : Int)⟩ e2 = (⟨5, 1, 2, (pack 5 1 2 : Int)⟩, Ctl.retry)) ∧
      ∃ sc, genBody ⟨5, 1, 2, (pack 5 1 2 : Int)⟩ e = (sc, Ctl.emit (pack 6 0 0)) ∧
        (⟨5, 1, 2, (pack 5 1 2 : Int)⟩ : GenState).lastUUID < ((pack 6 0 0 : Nat) : Int) ∧
        (⟨6, 0, 0, (pack 6 0 0 : Int)⟩ : GenState) = { sc with lastUUID := ((pack 6 0 0 : Nat) : Int) } ∧
        sc.lastUUID = (⟨5, 1, 2, (pack 5 1 2 : Int)⟩ : GenState).lastUUID ∧
        sc.lastTimestamp = (e.now : Int) :=
  claim_C4_frame ⟨5, 1, 2, (pack 5 1 2 : Int)⟩ [⟨3, 0, 0, 0⟩, ⟨6, 0, 0, 0⟩]
    ⟨6, 0, 0, (pack 6 0 0 : Int)⟩ (pack 6 0 0) []
    ⟨⟨by norm_num, by norm_num, by norm_num, by norm_num⟩,
      Or.inr ⟨by norm_num, by decide⟩⟩
    (by
      intro e he
      fin_cases he <;> exact ⟨by norm_num, by norm_num, by norm_num, by norm_num⟩)
    (by decide)

/-- Claim C5: on the timestamp-tie path, `randA` is kept equal to
`#lastRandA` and `randB = #lastRandB + r` with `r = step + 1 ∈ [1, 2^32]`;
on 62-bit overflow `randB` is re-drawn fresh and `randA` becomes
`#lastRandA + 1`; and in the clock-driven generator a 12-bit overflow of
that increment abandons the attempt (`continue`) without emitting. The same
facts are stated for the tie path of the fixed-timestamp generator's
increment logic through its own `genT` in claims C6/C8; here `genBody` is
the clock-driven loop body. -/
theorem claim_C5_tie_path (s : GenState) (e : Env)
    (ht : s.lastTimestamp = (e.now : Int)) (hstep : e.step < 2 ^ 32) :
    (1 ≤ e.step + 1 ∧ e.step + 1 ≤ 2 ^ 32) ∧
      (s.lastRandB + (e.step + 1) ≤ 2 ^ 62 - 1 →
        genBody s e =
          ({ s with
              lastTimestamp := (e.now : Int)
              lastRandA := s.lastRandA
              lastRandB := s.lastRandB + (e.step + 1) },
            Ctl.emit (pack e.now s.lastRandA (s.lastRandB + (e.step + 1))))) ∧
      (s.lastRandB + (e.step + 1) > 2 ^ 62 - 1 → s.lastRandA + 1 ≤ 2 ^ 12 - 1 →
        genBody s e =
          ({ s with
              lastTimestamp := (e.now : Int)
              lastRandA := s.lastRandA + 1
              lastRandB := (genRandParts e.fresh2).randB },
            Ctl.emit (pack e.now (s.lastRandA + 1) (genRandParts e.fresh2).randB))) ∧
      (s.lastRandB + (e.step + 1) > 2 ^ 62 - 1 → s.lastRandA + 1 > 2 ^ 12 - 1 →
        genBody s e = (s, Ctl.retry)) :=
  ⟨⟨by omega, by omega⟩,
    fun hov => genBody_tie_no_overflow ht hov,
    fun hov hA => genBody_tie_overflow_emit ht hov hA,
    fun hov hA => genBody_tie_overflow_retry ht hov hA⟩

/-- Witness for C5 at a concrete tie-path state (no overflow branch). -/
theorem claim_C5_tie_path_witness :
    genBody ⟨9, 3, 10, (pack 9 3 10 : Int)⟩ ⟨9, 0, 4, 0⟩ =
      ({ lastTimestamp := ((9 : Nat) : Int), lastRandA := 3, lastRandB := 10 + (4 + 1),
          lastUUID := (pack 9 3 10 : Int) },
        Ctl.emit (pack 9 3 (10 + (4 + 1)))) :=
  (claim_C5_tie_path ⟨9, 3, 10, (pack 9 3 10 : Int)⟩ ⟨9, 0, 4, 0⟩ (by norm_num)
    (by norm_num)).2.1 (by norm_num)

/-- Claim C10: every fresh draw satisfies `randA ≤ 2^12 - 1` and
`randB ≤ 2^62 - 1`, so packing a fresh draw never alters the timestamp
(top 48 bits), version (next 4 bits) or variant (2 bits at offset 62)
fields. -/
theorem claim_C10_randparts (v4 : Nat) (h : v4 < 2 ^ 128) :
    (genRandParts v4).randA ≤ 2 ^ 12 - 1 ∧ (genRandParts v4).randB ≤ 2 ^ 62 - 1 ∧
      ∀ t : Nat, t < 2 ^ 48 →
        pack t (genRandParts v4).randA (genRandParts v4).randB / 2 ^ 80 = t ∧
        pack t (genRandParts v4).randA (genRandParts v4).randB / 2 ^ 76 % 2 ^ 4 = 7 ∧
        pack t (genRandParts v4).randA (genRandParts v4).randB / 2 ^ 62 % 2 ^ 2 = 2 := by
  have ha := genRandParts_randA_lt h
  have hb := genRandParts_randB_lt h
  refine ⟨by omega, by omega, fun t ht => ?_⟩
  have hp := pack_eq ht ha hb
  exact ⟨by omega, by omega, by omega⟩

/-- Witness for C10 at a concrete 128-bit draw and timestamp. -/
theorem claim_C10_randparts_witness :
    (genRandParts 0xaaaabbbbccccdddd0000111122223333).randA ≤ 2 ^ 12 - 1 ∧
      (genRandParts 0xaaaabbbbccccdddd0000111122223333).randB ≤ 2 ^ 62 - 1 ∧
      pack 1713815702151 (genRandParts 0xaaaabbbbccccdddd0000111122223333).randA
          (genRandParts 0xaaaabbbbccccdddd0000111122223333).randB / 2 ^ 80
        = 1713815702151 :=
  have h := claim_C10_randparts 0xaaaabbbbccccdddd0000111122223333 (by norm_num)
  ⟨h.1, h.2.1, (h.2.2 1713815702151 (by norm_num)).1⟩

/-! ## The fixed-timestamp generator -/

theorem genT_out_of_range {s : TState} {ts : Int} {e : TEnv}
    (h : ts < 0 ∨ ts > 2 ^ 48 - 1) :
    genT s ts e =
      (s, Except.error "uuidv7 gen error: custom timestamp must be between 0 and 2 ** 48 - 1") := by
  unfold genT
  rw [if_pos h]

theorem genT_fresh {s : TState} {ts : Int} {e : TEnv}
    (hr : ¬(ts < 0 ∨ ts > 2 ^ 48 - 1)) (hne : ts ≠ s.lastTimestamp) :
    genT s ts e =
      ({ lastTimestamp := ts, lastRandA := (genRandParts e.fresh).randA,
          lastRandB := (genRandParts e.fresh).randB },
        Except.ok (render (pack ts.toNat (genRandParts e.fresh).randA
          (genRandParts e.fresh).randB))) := by
  unfold genT
  rw [if_neg hr, if_pos hne]

theorem genT_tie_no_overflow {s : TState} {ts : Int} {e : TEnv}
    (hr : ¬(ts < 0 ∨ ts > 2 ^ 48 - 1)) (hte : ts = s.lastTimestamp)
    (hov : s.lastRandB + (e.step + 1) ≤ 2 ^ 62 - 1) :
    genT s ts e =
      ({ lastTimestamp := ts, lastRandA := s.lastRandA,
          lastRandB := s.lastRandB + (e.step + 1) },
        Except.ok (render (pack ts.toNat s.lastRandA (s.lastRandB + (e.step + 1))))) := by
  unfold genT
  rw [if_neg hr, if_neg (by simpa using hte), if_neg (by omega)]

theorem genT_tie_overflow {s : TState} {ts : Int} {e : TEnv}
    (hr : ¬(ts < 0 ∨ ts > 2 ^ 48 - 1)) (hte : ts = s.lastTimestamp)
    (hov : s.lastRandB + (e.step + 1) > 2 ^ 62 - 1)
    (hA : s.lastRandA + 1 ≤ 2 ^ 12 - 1) :
    genT s ts e =
      ({ lastTimestamp := ts, lastRandA := s.lastRandA + 1,
          lastRandB := (genRandParts e.fresh2).randB },
        Except.ok (render (pack ts.toNat (s.lastRandA + 1)
          (genRandParts e.fresh2).randB))) := by
  unfold genT
  rw [if_neg hr, if_neg (by simpa using hte), if_pos (by omega)]
  simp only [if_neg (show ¬(s.lastRandA + 1 > 2 ^ 12 - 1) from by omega)]

theorem genT_double_overflow {s : TState} {ts : Int} {e : TEnv}
    (hr : ¬(ts < 0 ∨ ts > 2 ^ 48 - 1)) (hte : ts = s.lastTimestamp)
    (hov : s.lastRandB + (e.step + 1) > 2 ^ 62 - 1)
    (hA : s.lastRandA + 1 > 2 ^ 12 - 1) :
    genT s ts e =
      ({ lastTimestamp := ts, lastRandA := (genRandParts e.fresh2).randA,
          lastRandB := (genRandParts e.fresh2).randB },
        Except.ok (render (pack ts.toNat (genRandParts e.fresh2).randA
          (genRandParts e.fresh2).randB))) := by
  unfold genT
  rw [if_neg hr, if_neg (by simpa using hte), if_pos (by omega)]
  simp only [if_pos (show s.lastRandA + 1 > 2 ^ 12 - 1 from by omega)]

theorem genT_ok_shape {s : TState} {ts : Int} {e : TEnv} {s2 : TState} {out : List Char}
    (hwfs : TStateWf s) (hwfe : TEnvWf e)
    (h : genT s ts e = (s2, Except.ok out)) :
    out = render (pack ts.toNat s2.lastRandA s2.lastRandB) ∧
      s2.lastTimestamp = ts ∧ 0 ≤ ts ∧ ts ≤ 2 ^ 48 - 1 ∧
      ts.toNat < 2 ^ 48 ∧ s2.lastRandA < 2 ^ 12 ∧ s2.lastRandB < 2 ^ 62 := by
  obtain ⟨hwa, hwb⟩ := hwfs
  obtain ⟨hfresh, hstep, hfresh2⟩ := hwfe
  by_cases hr : ts < 0 ∨ ts > 2 ^ 48 - 1
  · rw [genT_out_of_range hr] at h
    exact absurd (congrArg Prod.snd h) (by simp)
  · have hts1 : 0 ≤ ts := by omega
    have hts2 : ts ≤ 2 ^ 48 - 1 := by omega
    have hts3 : ts.toNat < 2 ^ 48 := by omega
    by_cases hne : ts = s.lastTimestamp
    · by_cases hov : s.lastRandB + (e.step + 1) ≤ 2 ^ 62 - 1
      · rw [genT_tie_no_overflow hr hne hov] at h
        injection h with h1 h2
        injection h2 with h2
        subst h1
        subst h2
        exact ⟨rfl, rfl, hts1, hts2, hts3, by simpa using hwa, by simp; omega⟩
      · by_cases hA : s.lastRandA + 1 ≤ 2 ^ 12 - 1
        · rw [genT_tie_overflow hr hne (by omega) hA] at h
          injection h with h1 h2
          injection h2 with h2
          subst h1
          subst h2
          exact ⟨rfl, rfl, hts1, hts2, hts3, by simp; omega,
            by simpa using genRandParts_randB_lt hfresh2⟩
        · rw [genT_double_overflow hr hne (by omega) (by omega)] at h
          injection h with h1 h2
          injection h2 with h2
          subst h1
          subst h2
          exact ⟨rfl, rfl, hts1, hts2, hts3,
            by simpa using genRandParts_randA_lt hfresh2,
            by simpa using genRandParts_randB_lt hfresh2⟩
    · rw [genT_fresh hr hne] at h
      injection h with h1 h2
      injection h2 with h2
      subst h1
      subst h2
      exact ⟨rfl, rfl, hts1, hts2, hts3,
        by simpa using genRandParts_randA_lt hfresh,
        by simpa using genRandParts_randB_lt hfresh⟩

/-- Claim C3: every string returned by `gen()` - through the clock-driven
loop or through the fixed-timestamp generator for a custom in-range
timestamp - passes `isValid`: 8-4-4-4-12 hex shape, version nibble 7,
variant nibble in 8/9/a/b. -/
theorem claim_C3_gen_isValid :
    (∀ (s : GenState) (envs : List Env) (s2 : GenState) (u : Nat) (rest : List Env),
        Consistent s → (∀ e ∈ envs, EnvWf e) →
        genLoop s envs = some (s2, u, rest) → isValid (render u) = true) ∧
      ∀ (s : TState) (ts : Int) (e : TEnv) (s2 : TState) (out : List Char),
        TStateWf s → TEnvWf e → genT s ts e = (s2, Except.ok out) →
        isValid out = true := by
  constructor
  · intro s envs s2 u rest hcons hwf h
    obtain ⟨_, _, _, _, t, a, b, ht, ha, hb, hup⟩ :=
      genLoop_sound envs s s2 u rest hcons hwf h
    rw [hup]
    exact isValid_render ht ha hb
  · intro s ts e s2 out hwfs hwfe h
    obtain ⟨hout, _, _, _, ht, ha, hb⟩ := genT_ok_shape hwfs hwfe h
    rw [hout]
    exact isValid_render ht ha hb

/-- Witness for C3: a concrete clock-driven call emits a structurally valid
identifier. -/
theorem claim_C3_gen_isValid_witness : isValid (render (pack 1 0 0)) = true :=
  claim_C3_gen_isValid.1 initState [⟨1, 0, 0, 0⟩] ⟨1, 0, 0, (pack 1 0 0 : Int)⟩
    (pack 1 0 0) [] consistent_initState
    (by
      intro e he
      fin_cases he
      exact ⟨by norm_num, by norm_num, by norm_num, by norm_num⟩)
    (by decide)

/-- Claim C8: `TimestampUUIDv7.gen(timestamp)` fails with the range error
exactly when the supplied timestamp is negative or exceeds `2^48 - 1`; in
that case no identifier is produced and the state is returned unchanged,
and otherwise an identifier is produced. -/
theorem claim_C8_range_check (s : TState) (ts : Int) (e : TEnv) :
    ((ts < 0 ∨ ts > 2 ^ 48 - 1) →
        genT s ts e = (s, Except.error
          "uuidv7 gen error: custom timestamp must be between 0 and 2 ** 48 - 1")) ∧
      (0 ≤ ts → ts ≤ 2 ^ 48 - 1 → ∃ s2 out, genT s ts e = (s2, Except.ok out)) := by
  constructor
  · exact genT_out_of_range
  · intro h1 h2
    have hr : ¬(ts < 0 ∨ ts > 2 ^ 48 - 1) := by omega
    by_cases hne : ts = s.lastTimestamp
    · by_cases hov : s.lastRandB + (e.step + 1) ≤ 2 ^ 62 - 1
      · exact ⟨_, _, genT_tie_no_overflow hr hne hov⟩
      · by_cases hA : s.lastRandA + 1 ≤ 2 ^ 12 - 1
        · exact ⟨_, _, genT_tie_overflow hr hne (by omega) hA⟩
        · exact ⟨_, _, genT_double_overflow hr hne (by omega) (by omega)⟩
    · exact ⟨_, _, genT_fresh hr hne⟩

/-- Witness for C8: a negative custom timestamp throws and leaves the state
unchanged; an in-range one succeeds. -/
theorem claim_C8_range_check_witness :
    genT initTState (-5) ⟨0, 0, 0⟩ = (initTState, Except.error
        "uuidv7 gen error: custom timestamp must be between 0 and 2 ** 48 - 1") ∧
      ∃ s2 out, genT initTState 7 ⟨0, 0, 0⟩ = (s2, Except.ok out) :=
  ⟨(claim_C8_range_check initTState (-5) ⟨0, 0, 0⟩).1 (by norm_num),
    (claim_C8_range_check initTState 7 ⟨0, 0, 0⟩).2 (by norm_num) (by norm_num)⟩

/-- Claim C6: when both counters overflow at the same caller-supplied
timestamp, the fixed-timestamp generator still returns an identifier -
`rand_a` is re-randomized from the fresh draw (the same `genRandParts()`
call that re-drew `rand_b`) - rather than signaling an error or retrying;
the returned string is a valid identifier. -/
theorem claim_C6_double_overflow (s : TState) (ts : Int) (e : TEnv)
    (h1 : 0 ≤ ts) (h2 : ts ≤ 2 ^ 48 - 1) (htie : ts = s.lastTimestamp)
    (hov : s.lastRandB + (e.step + 1) > 2 ^ 62 - 1)
    (hA : s.lastRandA + 1 > 2 ^ 12 - 1) (hwfe : TEnvWf e) :
    genT s ts e =
      ({ lastTimestamp := ts, lastRandA := (genRandParts e.fresh2).randA,
          lastRandB := (genRandParts e.fresh2).randB },
        Except.ok (render (pack ts.toNat (genRandParts e.fresh2).randA
          (genRandParts e.fresh2).randB))) ∧
      isValid (render (pack ts.toNat (genRandParts e.fresh2).randA
        (genRandParts e.fresh2).randB)) = true := by
  refine ⟨genT_double_overflow (by omega) htie hov hA, ?_⟩
  exact isValid_render (by omega) (genRandParts_randA_lt hwfe.2.2)
    (genRandParts_randB_lt hwfe.2.2)

/-- Witness for C6 at a concrete exhausted-counters state. -/
theorem claim_C6_double_overflow_witness :
    genT ⟨5, 2 ^ 12 - 1, 2 ^ 62 - 1⟩ 5 ⟨0, 3, 7⟩ =
      ({ lastTimestamp := 5, lastRandA := (genRandParts 7).randA,
          lastRandB := (genRandParts 7).randB },
        Except.ok (render (pack (5 : Int).toNat (genRandParts 7).randA
          (genRandParts 7).randB))) ∧
      isValid (render (pack (5 : Int).toNat (genRandParts 7).randA
        (genRandParts 7).randB)) = true :=
  claim_C6_double_overflow ⟨5, 2 ^ 12 - 1, 2 ^ 62 - 1⟩ 5 ⟨0, 3, 7⟩
    (by norm_num) (by norm_num) (by norm_num) (by norm_num) (by norm_num)
    ⟨by norm_num, by norm_num, by norm_num⟩

/-! ## Timestamp extraction lemmas -/

theorem replaceFirst_no_hyphen (A B : List Char) (h : ∀ c ∈ A, (c != '-') = true) :
    replaceFirst (A ++ '-' :: B) '-' = A ++ B := by
  induction A with
  | nil => simp [replaceFirst]
  | cons c A ih =>
    show replaceFirst (c :: (A ++ '-' :: B)) '-' = c :: (A ++ B)
    rw [replaceFirst]
    have hc : c ≠ '-' := by simpa using h c (by simp)
    rw [if_neg hc, ih (fun d hd => h d (by simp [hd]))]

theorem take13_shape (A B R : List Char) (hA : A.length = 8) (hB : B.length = 4) :
    (A ++ '-' :: (B ++ R)).take 13 = A ++ '-' :: B := by
  rw [List.take_append_eq_append_take, List.take_of_length_le (by omega), hA]
  show A ++ '-' :: (B ++ R).take 4 = A ++ '-' :: B
  rw [← hB, List.take_left]

theorem timestamp_top48 {x : List Char} (h : isValid x = true) :
    timestamp x = some (hexParse (x.filter (fun c => c != '-')) / 2 ^ 80) := by
  obtain ⟨g1, g2, g3, g4, g5, vc, hx, l1, l2, l3, l4, l5, f1, f2, f3, f4, f5, xv⟩ :=
    isValid_decomp h
  subst hx
  unfold timestamp
  rw [if_pos h]
  rw [take13_shape g1 g2 _ l1 l2,
    replaceFirst_no_hyphen g1 g2 (fun c hc => hex_ne_hyphen (f1 c hc))]
  have fe : ∀ t : List Char, (∀ c ∈ t, isHexDigit c = true) →
      t.filter (fun c => c != '-') = t := fun t ht =>
    List.filter_eq_self.mpr (fun a ha => hex_ne_hyphen (ht a ha))
  have hfil : List.filter (fun c => c != '-')
      (g1 ++ '-' :: (g2 ++ '-' :: ('7' :: g3 ++ '-' :: (vc :: g4 ++ '-' :: g5))))
      = g1 ++ (g2 ++ ('7' :: (g3 ++ (vc :: (g4 ++ g5))))) := by
    simp only [List.filter_append, List.filter_cons,
      hex_ne_hyphen (variant_isHexDigit xv),
      fe g1 f1, fe g2 f2, fe g3 f3, fe g4 f4, fe g5 f5]
    norm_num
    simp
  rw [hfil]
  have hg1 : hexParse g1 < 16 ^ 8 := by
    have := hexParse_lt g1 f1
    rw [l1] at this
    exact this
  have hg2 : hexParse g2 < 16 ^ 4 := by
    have := hexParse_lt g2 f2
    rw [l2] at this
    exact this
  have hT : ∀ c ∈ '7' :: (g3 ++ vc :: (g4 ++ g5)), isHexDigit c = true := by
    intro c hc
    rcases List.mem_cons.mp hc with hc | hc
    · subst hc; decide
    rcases List.mem_append.mp hc with hc | hc
    · exact f3 c hc
    rcases List.mem_cons.mp hc with hc | hc
    · subst hc; exact variant_isHexDigit xv
    rcases List.mem_append.mp hc with hc | hc
    · exact f4 c hc
    · exact f5 c hc
  have hTlen : ('7' :: (g3 ++ vc :: (g4 ++ g5))).length = 20 := by
    simp [l3, l4, l5]
  have hTlt : hexParse ('7' :: (g3 ++ vc :: (g4 ++ g5))) < 16 ^ 20 := by
    have := hexParse_lt _ hT
    rw [hTlen] at this
    exact this
  rw [hexParse_append g1 (g2 ++ '7' :: (g3 ++ vc :: (g4 ++ g5))),
    hexParse_append g2 ('7' :: (g3 ++ vc :: (g4 ++ g5))),
    hexParse_append g1 g2]
  rw [List.length_append, hTlen, l2]
  congr 1
  omega

theorem timestamp_render {t a b : Nat} (ht : t < 2 ^ 48) (ha : a < 2 ^ 12)
    (hb : b < 2 ^ 62) : timestamp (render (pack t a b)) = some t := by
  rw [timestamp_top48 (isValid_render ht ha hb)]
  have hu : pack t a b < 2 ^ 128 := pack_lt ht ha hb
  have hsum := pack_eq ht ha hb
  unfold render
  rw [toHex32_eq_hexPadM hu,
    filter_addHyphens _ (fun c hc =>
      hex_ne_hyphen (hexPadM_all_hex 32 _ (by omega) c hc)),
    hexParse_hexPadM 32 _ (by omega)]
  congr 1
  omega

/-- Claim C9: `timestamp(id)` is `null` exactly when `isValid id` fails;
otherwise it is the unsigned integer packed in the top 48 bits of the
identifier (for an identifier produced by the fixed-timestamp generator it
is exactly the supplied timestamp); on
`018f0760-4a87-737d-9889-b832d3dcce74` it returns `1713815702151`. -/
theorem claim_C9_timestamp :
    (∀ x : List Char, isValid x = false → timestamp x = none) ∧
      (∀ x : List Char, isValid x = true →
        timestamp x = some (hexParse (x.filter (fun c => c != '-')) / 2 ^ 80)) ∧
      (∀ (s : TState) (ts : Int) (e : TEnv) (s2 : TState) (out : List Char),
        TStateWf s → TEnvWf e → genT s ts e = (s2, Except.ok out) →
        timestamp out = some ts.toNat) ∧
      timestamp ("018f0760-4a87-737d-9889-b832d3dcce74".toList)
        = some 1713815702151 := by
  refine ⟨?_, ?_, ?_, ?_⟩
  · intro x hx
    unfold timestamp
    simp [hx]
  · exact fun x hx => timestamp_top48 hx
  · intro s ts e s2 out hwfs hwfe h
    obtain ⟨hout, _, _, _, ht48, ha, hb⟩ := genT_ok_shape hwfs hwfe h
    rw [hout]
    exact timestamp_render ht48 ha hb
  · decide

/-- Witness for C9: the extractor on a malformed string and on the
documented example. -/
theorem claim_C9_timestamp_witness :
    timestamp ("not-a-uuid".toList) = none ∧
      timestamp ("018f0760-4a87-737d-9889-b832d3dcce74".toList)
        = some (hexParse (("018f0760-4a87-737d-9889-b832d3dcce74".toList).filter
            (fun c => c != '-')) / 2 ^ 80) :=
  ⟨claim_C9_timestamp.1 _ (by decide), claim_C9_timestamp.2.1 _ (by decide)⟩

/-! ## The constructor's alphabet validation -/

theorem dedup_length_eq_iff {cs : List Char} :
    cs.dedup.length = cs.length ↔ cs.Nodup := by
  constructor
  · intro h
    have heq := (List.dedup_sublist cs).eq_of_length h
    rw [← heq]
    exact List.nodup_dedup cs
  · intro h
    rw [List.dedup_eq_self.mpr h]

/-- Counterexample to claim C7 as stated: supplying the empty alphabet
(symbol count 0, outside [16, 64]) does NOT fail with `InvalidAlphabet` -
the JavaScript truthiness test `if (opts?.encodeAlphabet)` treats the empty
string as falsy and skips both validations, and `?? ` then keeps the empty
string since it is not nullish. -/
theorem claim_C7_counterexample :
    mkUUIDv7 (some []) = Except.ok [] ∧ ¬(16 ≤ ([] : List Char).length) :=
  ⟨rfl, by decide⟩

/-- Claim C7, amended: for a supplied NON-EMPTY alphabet, construction
fails exactly when the symbol count is outside [16, 64] or a symbol
repeats (and succeeds, keeping the alphabet, otherwise); the empty string
bypasses validation. In particular alphabets of length 15 or 65 and
alphabets with a repeated symbol fail. -/
theorem claim_C7_amended (cs : List Char) (hne : cs ≠ []) :
    ((∃ msg, mkUUIDv7 (some cs) = Except.error msg) ↔
      (cs.length < 16 ∨ 64 < cs.length ∨ ¬cs.Nodup)) ∧
      (mkUUIDv7 (some cs) = Except.ok cs ↔
        (16 ≤ cs.length ∧ cs.length ≤ 64 ∧ cs.Nodup)) := by
  have hm : mkUUIDv7 (some cs) =
      if cs.length < 16 ∨ cs.length > 64 then
        Except.error "uuidv7 error: encode alphabet must be between 16 and 64 characters long"
      else if cs.dedup.length ≠ cs.length then
        Except.error "uuidv7 error: encode alphabet must not contain duplicate characters"
      else Except.ok cs := by
    have h0 : mkUUIDv7 (some cs) =
        if cs ≠ [] then
          if cs.length < 16 ∨ cs.length > 64 then
            Except.error "uuidv7 error: encode alphabet must be between 16 and 64 characters long"
          else if cs.dedup.length ≠ cs.length then
            Except.error "uuidv7 error: encode alphabet must not contain duplicate characters"
          else Except.ok cs
        else Except.ok cs := rfl
    rw [h0, if_pos hne]
  by_cases h1 : cs.length < 16 ∨ cs.length > 64
  · rw [if_pos h1] at hm
    constructor
    · constructor
      · intro _
        omega
      · intro _
        exact ⟨_, hm⟩
    · constructor
      · intro h
        rw [hm] at h
        exact absurd h (by simp)
      · intro h
        omega
  · rw [if_neg h1] at hm
    by_cases h2 : cs.dedup.length ≠ cs.length
    · rw [if_pos h2] at hm
      have hnd : ¬cs.Nodup := fun hn => h2 (dedup_length_eq_iff.mpr hn)
      constructor
      · constructor
        · intro _
          tauto
        · intro _
          exact ⟨_, hm⟩
      · constructor
        · intro h
          rw [hm] at h
          exact absurd h (by simp)
        · intro h
          exact absurd h.2.2 hnd
    · rw [if_neg h2] at hm
      have hnd : cs.Nodup := dedup_length_eq_iff.mp (by omega)
      constructor
      · constructor
        · intro ⟨msg, hmsg⟩
          rw [hm] at hmsg
          exact absurd hmsg (by simp)
        · intro h
          rcases h with h | h | h
          · omega
          · omega
          · exact absurd hnd h
      · constructor
        · intro _
          exact ⟨by omega, by omega, hnd⟩
        · intro _
          exact hm

/-- Witness for the amended C7: a 15-character alphabet and a 65-character
alphabet fail, a duplicated-symbol alphabet fails, and the default Base58
alphabet is accepted. -/
theorem claim_C7_amended_witness :
    (∃ msg, mkUUIDv7 (some ("ABCDEFGHJKLMNPQ".toList)) = Except.error msg) ∧
      (∃ msg, mkUUIDv7 (some (List.replicate 65 'x')) = Except.error msg) ∧
      (∃ msg, mkUUIDv7 (some ("AABCDEFGHJKLMNPQ".toList)) = Except.error msg) ∧
      mkUUIDv7 (some defaultAlphabet) = Except.ok defaultAlphabet :=
  ⟨(claim_C7_amended _ (by decide)).1.mpr (Or.inl (by decide)),
    (claim_C7_amended _ (by decide)).1.mpr (Or.inr (Or.inl (by decide))),
    (claim_C7_amended _ (by decide)).1.mpr (Or.inr (Or.inr (by decide))),
    (claim_C7_amended _ (by decide)).2.mpr ⟨by decide, by decide, by decide⟩⟩

/-! ## The base-N transcoder -/

theorem encodeNatAux_congr (A : Alphabet) (n : Nat) : ∀ f g : Nat, n < f → n < g →
    encodeNatAux A f n = encodeNatAux A g n := by
  induction n using Nat.strong_induction_on with
  | _ n ih =>
    intro f g hf hg
    match f, g, hf, hg with
    | f + 1, g + 1, hf, hg =>
      simp only [encodeNatAux]
      by_cases h0 : n = 0
      · simp [h0]
      · have hL : 16 ≤ A.chars.length := A.min_len
        have hdiv : n / A.chars.length < n := Nat.div_lt_self (by omega) (by omega)
        simp only [h0, if_false]
        rw [ih (n / A.chars.length) hdiv f g (by omega) (by omega)]

theorem encodeNat_eq (A : Alphabet) (n : Nat) : encodeNat A n =
    if n = 0 then [] else encodeNat A (n / A.chars.length) ++
      [A.chars.getD (n % A.chars.length) ' '] := by
  show encodeNatAux A (n + 1) n = _
  simp only [encodeNatAux]
  by_cases h0 : n = 0
  · simp [h0]
  · have hL : 16 ≤ A.chars.length := A.min_len
    have hdiv : n / A.chars.length < n := Nat.div_lt_self (by omega) (by omega)
    simp only [h0, if_false]
    rw [encodeNatAux_congr A (n / A.chars.length) n (n / A.chars.length + 1)
      (by omega) (by omega)]
    rfl

theorem decodeLoop_append (A : Alphabet) (xs ys : List Char) : ∀ n : Nat,
    decodeLoop A n (xs ++ ys) = match decodeLoop A n xs with
      | Except.ok m => decodeLoop A m ys
      | Except.error e => Except.error e := by
  induction xs with
  | nil => intro n; rfl
  | cons c xs ih =>
    intro n
    show decodeLoop A n (c :: (xs ++ ys)) = _
    rw [decodeLoop]
    by_cases hc : c ∈ A.chars
    · rw [if_pos hc, ih]
      have h2 : decodeLoop A n (c :: xs)
          = decodeLoop A (n * A.chars.length + A.chars.indexOf c) xs := by
        rw [decodeLoop, if_pos hc]
      rw [h2]
    · rw [if_neg hc]
      have h2 : decodeLoop A n (c :: xs)
          = Except.error "uuidv7 decode error: invalid character in id" := by
        rw [decodeLoop, if_neg hc]
      rw [h2]

theorem decodeLoop_encodeNat (A : Alphabet) (n : Nat) : ∀ acc : Nat,
    decodeLoop A acc (encodeNat A n) =
      Except.ok (acc * A.chars.length ^ (encodeNat A n).length + n) := by
  induction n using Nat.strong_induction_on with
  | _ n ih =>
    intro acc
    by_cases h0 : n = 0
    · subst h0
      rw [encodeNat_eq, if_pos rfl]
      show Except.ok acc = _
      simp
    · have hL : 16 ≤ A.chars.length := A.min_len
      have hdiv : n / A.chars.length < n := Nat.div_lt_self (by omega) (by omega)
      have hmod : n % A.chars.length < A.chars.length := Nat.mod_lt _ (by omega)
      have hmem : A.chars.getD (n % A.chars.length) ' ' ∈ A.chars := by
        rw [List.getD_eq_getElem A.chars ' ' hmod]
        exact List.getElem_mem hmod
      have hidx : A.chars.indexOf (A.chars.getD (n % A.chars.length) ' ')
          = n % A.chars.length := by
        rw [List.getD_eq_getElem A.chars ' ' hmod]
        exact List.indexOf_getElem A.nodup _ hmod
      rw [encodeNat_eq, if_neg h0, decodeLoop_append, ih (n / A.chars.length) hdiv acc]
      have hone : decodeLoop A (acc * A.chars.length ^ (encodeNat A (n / A.chars.length)).length
            + n / A.chars.length) [A.chars.getD (n % A.chars.length) ' ']
          = Except.ok ((acc * A.chars.length ^ (encodeNat A (n / A.chars.length)).length
            + n / A.chars.length) * A.chars.length + n % A.chars.length) := by
        rw [decodeLoop, if_pos hmem, hidx]
        rfl
      have harith : (acc * A.chars.length ^ (encodeNat A (n / A.chars.length)).length
            + n / A.chars.length) * A.chars.length + n % A.chars.length
          = acc * A.chars.length ^ (encodeNat A (n / A.chars.length)
              ++ [A.chars.getD (n % A.chars.length) ' ']).length + n := by
        rw [List.length_append, List.length_cons, List.length_nil, pow_succ]
        have hdm := Nat.div_add_mod n A.chars.length
        calc (acc * A.chars.length ^ (encodeNat A (n / A.chars.length)).length
              + n / A.chars.length) * A.chars.length + n % A.chars.length
            = acc * (A.chars.length ^ (encodeNat A (n / A.chars.length)).length
                * A.chars.length)
              + (A.chars.length * (n / A.chars.length) + n % A.chars.length) := by ring
          _ = acc * (A.chars.length ^ (encodeNat A (n / A.chars.length)).length
                * A.chars.length) + n := by rw [hdm]
          _ = acc * A.chars.length ^ ((encodeNat A (n / A.chars.length)).length + 0 + 1)
              + n := by rw [pow_succ]
      exact hone.trans (congrArg Except.ok harith)

theorem addHyphens_groups (g1 g2 g3 g4 g5 : List Char)
    (l1 : g1.length = 8) (l2 : g2.length = 4) (l3 : g3.length = 4)
    (l4 : g4.length = 4) (l5 : g5.length = 12) :
    addHyphens (g1 ++ (g2 ++ (g3 ++ (g4 ++ g5))))
      = g1 ++ '-' :: (g2 ++ '-' :: (g3 ++ '-' :: (g4 ++ '-' :: g5))) := by
  have d8 : (g1 ++ (g2 ++ (g3 ++ (g4 ++ g5)))).drop 8 = g2 ++ (g3 ++ (g4 ++ g5)) :=
    List.drop_left' l1
  have d12 : (g1 ++ (g2 ++ (g3 ++ (g4 ++ g5)))).drop 12 = g3 ++ (g4 ++ g5) := by
    rw [List.drop_append_eq_append_drop, List.drop_eq_nil_of_le (by omega), l1,
      List.nil_append]
    show (g2 ++ (g3 ++ (g4 ++ g5))).drop 4 = _
    exact List.drop_left' l2
  have d16 : (g1 ++ (g2 ++ (g3 ++ (g4 ++ g5)))).drop 16 = g4 ++ g5 := by
    rw [List.drop_append_eq_append_drop, List.drop_eq_nil_of_le (by omega), l1,
      List.nil_append]
    show (g2 ++ (g3 ++ (g4 ++ g5))).drop 8 = _
    rw [List.drop_append_eq_append_drop, List.drop_eq_nil_of_le (by omega), l2,
      List.nil_append]
    show (g3 ++ (g4 ++ g5)).drop 4 = _
    exact List.drop_left' l3
  have d20 : (g1 ++ (g2 ++ (g3 ++ (g4 ++ g5)))).drop 20 = g5 := by
    rw [List.drop_append_eq_append_drop, List.drop_eq_nil_of_le (by omega), l1,
      List.nil_append]
    show (g2 ++ (g3 ++ (g4 ++ g5))).drop 12 = _
    rw [List.drop_append_eq_append_drop, List.drop_eq_nil_of_le (by omega), l2,
      List.nil_append]
    show (g3 ++ (g4 ++ g5)).drop 8 = _
    rw [List.drop_append_eq_append_drop, List.drop_eq_nil_of_le (by omega), l3,
      List.nil_append]
    show (g4 ++ g5).drop 4 = _
    exact List.drop_left' l4
  unfold addHyphens
  rw [List.take_left' l1, d8, List.take_left' l2, d12, List.take_left' l3, d16,
    List.take_left' l4, d20]

theorem render_uuidValue {x : List Char} (hv : isValid x = true)
    (hl : noUpperHex x = true) :
    addHyphens (toHex32 (hexParse (x.filter (fun c => c != '-')))) = x ∧
      hexParse (x.filter (fun c => c != '-')) < 2 ^ 128 := by
  obtain ⟨g1, g2, g3, g4, g5, vc, hx, l1, l2, l3, l4, l5, f1, f2, f3, f4, f5, xv⟩ :=
    isValid_decomp hv
  subst hx
  have fe : ∀ t : List Char, (∀ c ∈ t, isHexDigit c = true) →
      t.filter (fun c => c != '-') = t := fun t ht =>
    List.filter_eq_self.mpr (fun a ha => hex_ne_hyphen (ht a ha))
  have hfil : List.filter (fun c => c != '-')
      (g1 ++ '-' :: (g2 ++ '-' :: ('7' :: g3 ++ '-' :: (vc :: g4 ++ '-' :: g5))))
      = g1 ++ (g2 ++ ('7' :: g3 ++ (vc :: g4 ++ g5))) := by
    simp only [List.filter_append, List.filter_cons,
      hex_ne_hyphen (variant_isHexDigit xv),
      fe g1 f1, fe g2 f2, fe g3 f3, fe g4 f4, fe g5 f5]
    norm_num
    simp
  rw [hfil]
  have hds : ∀ c ∈ g1 ++ (g2 ++ ('7' :: g3 ++ (vc :: g4 ++ g5))), isHexDigit c = true := by
    intro c hc
    rcases List.mem_append.mp hc with hc | hc
    · exact f1 c hc
    rcases List.mem_append.mp hc with hc | hc
    · exact f2 c hc
    rcases List.mem_append.mp hc with hc | hc
    · rcases List.mem_cons.mp hc with hc | hc
      · subst hc; decide
      · exact f3 c hc
    rcases List.mem_append.mp hc with hc | hc
    · rcases List.mem_cons.mp hc with hc | hc
      · subst hc; exact variant_isHexDigit xv
      · exact f4 c hc
    · exact f5 c hc
  have hdslen : (g1 ++ (g2 ++ ('7' :: g3 ++ (vc :: g4 ++ g5)))).length = 32 := by
    simp [l1, l2, l3, l4, l5]
  have hlow : ∀ c ∈ g1 ++ (g2 ++ ('7' :: g3 ++ (vc :: g4 ++ g5))), isLowerHex c = true := by
    intro c hc
    apply isLowerHex_of_hex_noUpper (hds c hc)
    unfold noUpperHex at hl
    rw [List.all_eq_true] at hl
    apply hl
    have hsub : c ∈ List.filter (fun c => c != '-')
        (g1 ++ '-' :: (g2 ++ '-' :: ('7' :: g3 ++ '-' :: (vc :: g4 ++ '-' :: g5)))) := by
      rw [hfil]
      exact hc
    exact List.mem_of_mem_filter hsub
  have hlt : hexParse (g1 ++ (g2 ++ ('7' :: g3 ++ (vc :: g4 ++ g5)))) < 16 ^ 32 := by
    have := hexParse_lt _ hds
    rw [hdslen] at this
    exact this
  have hlt2 : hexParse (g1 ++ (g2 ++ ('7' :: g3 ++ (vc :: g4 ++ g5)))) < 2 ^ 128 := by
    omega
  refine ⟨?_, hlt2⟩
  rw [toHex32_eq_hexPadM hlt2]
  have hp : hexPadM 32 (hexParse (g1 ++ (g2 ++ ('7' :: g3 ++ (vc :: g4 ++ g5)))))
      = g1 ++ (g2 ++ ('7' :: g3 ++ (vc :: g4 ++ g5))) := by
    have := hexPadM_hexParse _ hlow
    rw [hdslen] at this
    exact this
  rw [hp]
  have e1 : g1 ++ (g2 ++ ('7' :: g3 ++ (vc :: g4 ++ g5)))
      = g1 ++ (g2 ++ (('7' :: g3) ++ ((vc :: g4) ++ g5))) := by simp
  rw [e1, addHyphens_groups g1 g2 ('7' :: g3) (vc :: g4) g5 l1 l2 (by simp [l3])
    (by simp [l4]) l5]

theorem decodeLoop_error (A : Alphabet) : ∀ (s : List Char) (n : Nat),
    (∃ c ∈ s, c ∉ A.chars) →
    decodeLoop A n s = Except.error "uuidv7 decode error: invalid character in id" := by
  intro s
  induction s with
  | nil =>
    intro n h
    obtain ⟨c, hc, _⟩ := h
    simp at hc
  | cons c s ih =>
    intro n h
    rw [decodeLoop]
    by_cases hc : c ∈ A.chars
    · rw [if_pos hc]
      apply ih
      obtain ⟨c0, hc0, hn0⟩ := h
      rcases List.mem_cons.mp hc0 with h1 | h1
      · subst h1
        exact absurd hc hn0
      · exact ⟨c0, h1, hn0⟩
    · rw [if_neg hc]

theorem decodeOrThrow_ok_valid {A : Alphabet} {s y : List Char}
    (h : decodeOrThrow A s = Except.ok y) : isValid y = true := by
  unfold decodeOrThrow at h
  cases hl : decodeLoop A 0 s with
  | error e =>
    rw [hl] at h
    exact absurd h (by simp)
  | ok n =>
    rw [hl] at h
    have h2 : (if isValid (addHyphens (toHex32 n)) then
        Except.ok (addHyphens (toHex32 n))
        else Except.error "uuidv7 decode error: cannot decode into a valid UUIDv7")
        = Except.ok y := h
    by_cases hv : isValid (addHyphens (toHex32 n)) = true
    · rw [if_pos hv] at h2
      injection h2 with h3
      rw [← h3]
      exact hv
    · rw [if_neg hv] at h2
      exact absurd h2 (by simp)

/-- Claim C2, amended: for every identifier `x` accepted by `isValid` that
is in canonical (lowercase) form, and every alphabet accepted at
construction, `decode(encode(x)) = x`; if `x` contains uppercase
hexadecimal letters the round trip instead returns the lowercase canonical
form (see the counterexample). For any string containing a character
outside the alphabet, `decode` returns `null` and `decodeOrThrow` throws;
and whenever `decode` returns a string at all, that string passes
`isValid` (never a malformed identifier). -/
theorem claim_C2_roundtrip (A : Alphabet) :
    (∀ x : List Char, isValid x = true → noUpperHex x = true →
        (encode A x).toOption.bind (decode A) = some x) ∧
      (∀ s : List Char, (∃ c ∈ s, c ∉ A.chars) →
        decode A s = none ∧
          decodeOrThrow A s
            = Except.error "uuidv7 decode error: invalid character in id") ∧
      (∀ s y : List Char, decode A s = some y → isValid y = true) := by
  refine ⟨?_, ?_, ?_⟩
  · intro x hv hl
    have henc : encode A x
        = Except.ok (encodeNat A (hexParse (x.filter (fun c => c != '-')))) := by
      unfold encode
      rw [if_pos hv]
    rw [henc]
    show decode A (encodeNat A (hexParse (x.filter (fun c => c != '-')))) = some x
    obtain ⟨hrender, hlt⟩ := render_uuidValue hv hl
    have hdl : decodeLoop A 0 (encodeNat A (hexParse (x.filter (fun c => c != '-'))))
        = Except.ok (hexParse (x.filter (fun c => c != '-'))) := by
      rw [decodeLoop_encodeNat]
      simp
    have hdt : decodeOrThrow A (encodeNat A (hexParse (x.filter (fun c => c != '-'))))
        = Except.ok x := by
      unfold decodeOrThrow
      rw [hdl]
      have h2 : (if isValid (addHyphens (toHex32 (hexParse (x.filter (fun c => c != '-'))))) then
          Except.ok (addHyphens (toHex32 (hexParse (x.filter (fun c => c != '-')))))
          else Except.error "uuidv7 decode error: cannot decode into a valid UUIDv7")
          = (if isValid x then Except.ok x
            else Except.error "uuidv7 decode error: cannot decode into a valid UUIDv7") := by
        rw [hrender]
      exact h2.trans (if_pos hv)
    unfold decode
    rw [hdt]
  · intro s hs
    have hdt : decodeOrThrow A s
        = Except.error "uuidv7 decode error: invalid character in id" := by
      unfold decodeOrThrow
      rw [decodeLoop_error A s 0 hs]
    refine ⟨?_, hdt⟩
    unfold decode
    rw [hdt]
  · intro s y h
    unfold decode at h
    cases hd : decodeOrThrow A s with
    | error e =>
      rw [hd] at h
      exact absurd h (by simp)
    | ok d =>
      rw [hd] at h
      injection h with h2
      rw [← h2]
      exact decodeOrThrow_ok_valid hd

/-- Counterexample to C2 as stated: `isValid` is case-insensitive, but the
decoder always renders the lowercase canonical form, so a structurally
valid identifier with uppercase hexadecimal letters does not round-trip. -/
theorem claim_C2_counterexample :
    isValid upperId = true ∧
      (encode B58 upperId).toOption.bind (decode B58) = some lowerId ∧
      lowerId ≠ upperId :=
  ⟨by decide, by decide, by decide⟩

/-- Witness for the amended C2: the canonical example identifier
round-trips through the default Base58 alphabet, and a string with a
character outside the alphabet decodes to `null`. -/
theorem claim_C2_roundtrip_witness :
    (encode B58 lowerId).toOption.bind (decode B58) = some lowerId ∧
      decode B58 ("!!!".toList) = none :=
  ⟨(claim_C2_roundtrip B58).1 lowerId (by decide) (by decide),
    ((claim_C2_roundtrip B58).2.1 ("!!!".toList) ⟨'!', by decide, by decide⟩).1⟩
